import Mathlib

/-!
Verification of the terminal chat server (`src/main.cpp`).

The server is a single-threaded asio event loop; all application logic runs
serialized between I/O suspension points, so we embed it as a sequential
transition system over an explicit `Server` state.  Sessions are identified
by the order of their creation (`Nat` ids standing for the distinct
`shared_ptr<ChatSession>` identities).  `std::map` is embedded as an
association list with unique keys (`findVal` / `mapSet` / `mapErase` mirror
`find` / `operator[]`-assignment / `erase`); iteration order only affects the
delivery order of messages, never which messages are delivered, and no claim
here depends on delivery order.  Writes are modelled as always succeeding:
`deliver` appends a (recipient, text) pair to a message log, and the
write-error path into `cleanup` is represented by `cleanup` being available
as an independent transition.
-/

/-- `enum class Mode { None, Room, Pv }` from the source. -/
inductive Mode where
  | None : Mode
  | Room : Mode
  | Pv : Mode
deriving DecidableEq, Repr

/-- The per-session fields of `ChatSession`: `name_`, `color_`, `has_name_`,
`mode_`, `active_room_`, `active_pv_`. -/
structure SessData where
  name : String
  color : String
  has_name : Bool
  mode : Mode
  active_room : String
  active_pv : String
deriving DecidableEq, Repr

instance : Inhabited SessData :=
  ⟨{ name := ""
     color := ""
     has_name := false
     mode := Mode.None
     active_room := ""
     active_pv := "" }⟩

/-- Lookup in an association list keyed by strings, mirroring `std::map::find`
(the first matching key wins; all maps we build have unique keys). -/
def findVal {β : Type} (k : String) : List (String × β) → Option β
  | [] => Option.none
  | (a, b) :: t => if a = k then some b else findVal k t

/-- Insert-or-assign, mirroring `std::map::operator[] = v`: replaces the value
of an existing key in place, otherwise appends a fresh entry. -/
def mapSet {β : Type} (k : String) (v : β) : List (String × β) → List (String × β)
  | [] => [(k, v)]
  | (a, b) :: t => if a = k then (k, v) :: t else (a, b) :: mapSet k v t

/-- Key removal, mirroring `std::map::erase(key)`. -/
def mapErase {β : Type} (k : String) : List (String × β) → List (String × β)
  | [] => []
  | (a, b) :: t => if a = k then t else (a, b) :: mapErase k t

/-- `std::set` insertion of a session id (no-op when already present). -/
def insertMem (i : Nat) (l : List Nat) : List Nat :=
  if i ∈ l then l else l ++ [i]

/-- `std::set` erasure of a session id. -/
def eraseMem (i : Nat) (l : List Nat) : List Nat :=
  l.filter (fun j => j ≠ i)

/-- The whole process state: the three registry globals (`sessions`, `rooms`,
`users_by_name`), the per-session objects (`st`, total over ids; ids `≥ nextId`
are not yet constructed), the global `color_index`, and the log of messages
delivered so far as (recipient, text) pairs.  `users_by_name` values are
`Option Nat` because a `shared_ptr` value in the C++ map can be null (default
constructed by `operator[]`). -/
structure Server where
  sessions : List Nat
  rooms : List (String × List Nat)
  users_by_name : List (String × Option Nat)
  st : Nat → SessData
  nextId : Nat
  color_index : Nat
  msgs : List (Nat × String)

attribute [ext] Server

/-- Point update of the per-session state table. -/
def updSt (f : Nat → SessData) (i : Nat) (d : SessData) : Nat → SessData :=
  fun j => if j = i then d else f j

/-- The routing-context reset performed at the end of `leave_all` and of
`cleanup`: `mode_ = None`, `active_room_.clear()`, `active_pv_.clear()`
(`name_`, `color_` and `has_name_` are untouched). -/
def clearCtx (d : SessData) : SessData :=
  { d with mode := Mode.None, active_room := "", active_pv := "" }

def name_colors : List String :=
  ["\x1b[36m", "\x1b[32m", "\x1b[33m", "\x1b[35m", "\x1b[34m"]

def reset_color : String := "\x1b[0m"

/-- `colored_name()`: `color_ + name_ + reset_color`. -/
def colored_name (d : SessData) : String :=
  d.color ++ d.name ++ reset_color

/-- `deliver`: the (always successful) asynchronous write of one message to
one session's connection. -/
def deliver (s : Server) (i : Nat) (m : String) : Server :=
  { s with msgs := s.msgs ++ [(i, m)] }

/-- `broadcast_all`: `for (auto& s : sessions) s->deliver(msg);`. -/
def broadcast_all (s : Server) (m : String) : Server :=
  s.sessions.foldl (fun acc j => deliver acc j m) s

/-- `broadcast_room`: deliver to every member of the room, if the room exists. -/
def broadcast_room (s : Server) (r : String) (m : String) : Server :=
  match findVal r s.rooms with
  | Option.none => s
  | some mem => mem.foldl (fun acc j => deliver acc j m) s

/-- `handle_name`: reject a name already present in `users_by_name`
(null entries included, since `count` only checks the key), otherwise
register, greet, and broadcast the arrival to every live session. -/
def handle_name (s : Server) (i : Nat) (nm : String) : Server :=
  if (findVal nm s.users_by_name).isSome then
    deliver s i "Name already taken. Try another: "
  else
    let d1 := { s.st i with name := nm, has_name := true }
    let s1 := { s with
      st := updSt s.st i d1
      users_by_name := mapSet nm (some i) s.users_by_name }
    let s2 := deliver s1 i ("Hi " ++ colored_name d1 ++
      "! Commands: /join <room>, /pv <user>, /leave, /whereami, /rooms, /users\n")
    broadcast_all s2 (colored_name d1 ++ " joined the server.\n")

/-- The room-departure block shared verbatim by `leave_all` and `cleanup`:
if the context `d` is a nonempty room name in Room mode and the room is found,
erase the session from its member set and notify the remaining members.  The
emptied room entry is left in `rooms` (as in the source). -/
def room_leave_step (s : Server) (d : SessData) (i : Nat) : Server :=
  if d.mode = Mode.Room ∧ d.active_room ≠ "" then
    match findVal d.active_room s.rooms with
    | Option.none => s
    | some mem =>
      let sA := { s with rooms := mapSet d.active_room (eraseMem i mem) s.rooms }
      broadcast_room sA d.active_room
        (colored_name d ++ " left room " ++ d.active_room ++ ".\n")
  else s

/-- `leave_all`: the room-departure block, then reset the routing context. -/
def leave_all (s : Server) (i : Nat) : Server :=
  let d := s.st i
  let s1 := room_leave_step s d i
  { s1 with st := (updSt s1.st i
      { d with mode := Mode.None, active_room := "", active_pv := "" }) }

/-- `switch_to_room`: implicit leave, set the room context, insert self into
the room (`rooms[room].insert` creates the room when absent), notify the whole
room (self included, as in the source), acknowledge. -/
def switch_to_room (s : Server) (i : Nat) (room : String) : Server :=
  let s1 := leave_all s i
  let d1 := { s1.st i with mode := Mode.Room, active_room := room }
  let s2 := { s1 with st := updSt s1.st i d1 }
  let mem := (findVal room s2.rooms).getD []
  let s3 := { s2 with rooms := mapSet room (insertMem i mem) s2.rooms }
  let s4 := broadcast_room s3 room
    (colored_name d1 ++ " joined room " ++ room ++ ".\n")
  deliver s4 i ("You are now in room " ++ room ++ ". Type to chat here.\n")

/-- `switch_to_pv`: validate the target (registered key, not self), then
implicit leave and set the peer context. -/
def switch_to_pv (s : Server) (i : Nat) (target : String) : Server :=
  if (findVal target s.users_by_name).isSome = false then
    deliver s i "User not found.\n"
  else if target = (s.st i).name then
    deliver s i "You cannot start PV with yourself.\n"
  else
    let s1 := leave_all s i
    let s2 := { s1 with st := (updSt s1.st i
        { s1.st i with mode := Mode.Pv, active_pv := target }) }
    deliver s2 i ("Private chat with " ++ target ++ " started. Type to chat.\n")

/-- `send_message`: room fan-out skips the sender; pv fan-out resolves
`users_by_name[active_pv_]`, whose `operator[]` default-inserts a null entry
when the key is absent (kept faithfully here); otherwise a usage hint. -/
def send_message (s : Server) (i : Nat) (text : String) : Server :=
  let d := s.st i
  if d.mode = Mode.Room ∧ d.active_room ≠ "" then
    let s0 := if (findVal d.active_room s.rooms).isSome then s
              else { s with rooms := mapSet d.active_room [] s.rooms }
    let mem := (findVal d.active_room s0.rooms).getD []
    mem.foldl (fun acc j => if j = i then acc else
      deliver acc j (colored_name d ++ " [" ++ d.active_room ++ "]: " ++ text ++ "\n")) s0
  else if d.mode = Mode.Pv ∧ d.active_pv ≠ "" then
    let s0 := if (findVal d.active_pv s.users_by_name).isSome then s
              else { s with users_by_name := mapSet d.active_pv Option.none s.users_by_name }
    match (findVal d.active_pv s0.users_by_name).getD Option.none with
    | some j =>
      let sA := deliver s0 j (colored_name d ++ " (PV): " ++ text ++ "\n")
      deliver sA j ("You have new message in pv " ++ d.name ++ "\n")
    | Option.none => deliver s0 i "User went offline.\n"
  else
    deliver s i "You are not in a room or pv. Use /join <room> or /pv <user>\n"

/-- `report_whereami`. -/
def report_whereami (s : Server) (i : Nat) : Server :=
  let d := s.st i
  if d.mode = Mode.Room then deliver s i ("You are in room: " ++ d.active_room ++ "\n")
  else if d.mode = Mode.Pv then deliver s i ("You are in pv with: " ++ d.active_pv ++ "\n")
  else deliver s i "You are in: none\n"

/-- The text assembled by `list_rooms` (every entry of `rooms`, with its
member count). -/
def list_rooms_text (s : Server) : String :=
  s.rooms.foldl (fun out r => out ++ "- " ++ r.1 ++ " (" ++ toString r.2.length ++ " users)\n")
    "Rooms:\n"

/-- `list_rooms`. -/
def list_rooms (s : Server) (i : Nat) : Server :=
  deliver s i (list_rooms_text s)

/-- The text assembled by `list_users`. -/
def list_users_text (s : Server) : String :=
  s.users_by_name.foldl (fun out kv => out ++ "- " ++ kv.1 ++ "\n") "Users:\n"

/-- `list_users`. -/
def list_users (s : Server) (i : Nat) : Server :=
  deliver s i (list_users_text s)

/-- `starts_with(s, pre)` (`s.rfind(pre, 0) == 0`), on character lists. -/
def isPrefixList : List Char → List Char → Bool
  | [], _ => true
  | _ :: _, [] => false
  | a :: p, b :: t => a = b && isPrefixList p t

/-- `starts_with` lifted to strings. -/
def starts_with (s pre : String) : Bool :=
  isPrefixList pre.data s.data

/-- `msg.substr(n)`. -/
def substrFrom (s : String) (n : Nat) : String :=
  String.mk (s.data.drop n)

/-- `handle_command_or_message`. -/
def handle_command_or_message (s : Server) (i : Nat) (msg : String) : Server :=
  if starts_with msg "/join " then switch_to_room s i (substrFrom msg 6)
  else if starts_with msg "/pv " then switch_to_pv s i (substrFrom msg 4)
  else if msg = "/leave" then
    deliver (leave_all s i) i "You left all contexts. Mode: none.\n"
  else if msg = "/whereami" then report_whereami s i
  else if msg = "/rooms" then list_rooms s i
  else if msg = "/users" then list_users s i
  else send_message s i msg

/-- `isspace` of the default C locale, over the characters it is true on. -/
def isSpaceChar (c : Char) : Bool :=
  c = ' ' || c = '\t' || c = '\n' || c = '\x0b' || c = '\x0c' || c = '\r'

/-- `trim`: the erase/remove idiom deletes every `\r` and every `\n` anywhere
in the string, then leading and trailing `isspace` runs are erased. -/
def trimList (l : List Char) : List Char :=
  let l1 := (l.filter (fun c => c ≠ '\r')).filter (fun c => c ≠ '\n')
  let l2 := l1.dropWhile (fun c => isSpaceChar c)
  (l2.reverse.dropWhile (fun c => isSpaceChar c)).reverse

/-- `trim` lifted to strings. -/
def trim (s : String) : String :=
  String.mk (trimList s.data)

/-- The body of the `do_read` completion handler on a successful read:
preprocess the chunk, drop it when empty, otherwise dispatch on whether the
session is named yet. -/
def on_read (s : Server) (i : Nat) (chunk : String) : Server :=
  let msg := trim chunk
  if msg = "" then s
  else if (s.st i).has_name = false then handle_name s i msg
  else handle_command_or_message s i msg

/-- The `users_by_name` block of `cleanup`: when the session ever had a name,
look up `users_by_name[name_]` (whose `operator[]` default-inserts a null
entry when the key is absent, kept faithfully) and erase the entry only when
it still points to this very session. -/
def cleanup_user_step (s : Server) (nm : String) (i : Nat) : Server :=
  if nm ≠ "" then
    let sI := if (findVal nm s.users_by_name).isSome then s
              else { s with users_by_name := mapSet nm Option.none s.users_by_name }
    if (findVal nm sI.users_by_name).getD Option.none = some i then
      { sI with users_by_name := mapErase nm sI.users_by_name }
    else sI
  else s

/-- `cleanup`: erase from `sessions`; drop the own `users_by_name` entry when
it still points to this session; leave the current room with a departure
notice; reset the context fields (`name_` and `has_name_` are NOT reset, as
in the source); finally broadcast the departure when named. -/
def cleanup (s : Server) (i : Nat) : Server :=
  let d := s.st i
  let s1 := { s with sessions := eraseMem i s.sessions }
  let s2 := cleanup_user_step s1 d.name i
  let s3 := room_leave_step s2 d i
  let s4 := { s3 with st := (updSt s3.st i
      { d with mode := Mode.None, active_room := "", active_pv := "" }) }
  if d.has_name then broadcast_all s4 (colored_name d ++ " left the server.\n")
  else s4

/-- `start` for a freshly accepted connection: construct the session (colour
taken round-robin from `name_colors`), insert it into `sessions`, and send the
welcome prompt. -/
def start (s : Server) : Server :=
  let i := s.nextId
  let d : SessData :=
    { name := ""
      color := name_colors.getD (s.color_index % name_colors.length) ""
      has_name := false
      mode := Mode.None
      active_room := ""
      active_pv := "" }
  let s1 := { s with
    st := updSt s.st i d
    color_index := s.color_index + 1
    nextId := s.nextId + 1
    sessions := insertMem i s.sessions }
  deliver s1 i "Welcome! Please enter your name: "

/-- The empty process state at startup. -/
def init : Server :=
  { sessions := []
    rooms := []
    users_by_name := []
    st := fun _ => default
    nextId := 0
    color_index := 0
    msgs := [] }

/-- One serialized event-loop callback: an accepted connection, a completed
read for a live session, or a disconnect / I/O-error cleanup (available for
any constructed session, including repeated cleanup of the same session, as
a pending write completion can trigger it again). -/
inductive Step : Server → Server → Prop where
  | connect (s : Server) : Step s (start s)
  | read (s : Server) (i : Nat) (chunk : String) :
      i ∈ s.sessions → Step s (on_read s i chunk)
  | close (s : Server) (i : Nat) :
      i < s.nextId → Step s (cleanup s i)

/-- States reachable from startup by serialized callbacks. -/
inductive Reachable : Server → Prop where
  | init : Reachable init
  | step {s s' : Server} : Reachable s → Step s s' → Reachable s'

/-- Concrete trace: one client connects, names itself `Alice`, joins room
`lobby`, then leaves it with `/leave`. -/
def c1_state : Server :=
  on_read (on_read (on_read (start init) 0 "Alice\n") 0 "/join lobby\n") 0 "/leave\n"

/-- Concrete trace: client 0 named `Alice`, client 1 named `Bob`. -/
def two_named : Server :=
  on_read (start (on_read (start init) 0 "Alice\n")) 1 "Bob\n"

/-- Concrete trace: on top of `two_named`, Alice enters a private chat with
Bob, Bob disconnects, and Alice then sends a chat line into the dead pv. -/
def c2_state : Server :=
  on_read (cleanup (on_read two_named 0 "/pv Bob\n") 1) 0 "hi\n"

/-- Concrete trace: an unnamed client 0 is connected while client 1 becomes
named `Bob`. -/
def c4_state : Server :=
  on_read (start (start init)) 1 "Bob\n"

/-- Concrete trace: client 0 named `Alice` joins room `lobby`. -/
def c5_state : Server :=
  on_read (on_read (start init) 0 "Alice\n") 0 "/join lobby\n"

/-- Concrete trace: `two_named` with a third, still unnamed, client connected. -/
def three_sessions : Server :=
  start two_named

/-- The preprocessing exactly as the C9 claim words it (for comparison with
the source's `trim`): strip TRAILING carriage-return and newline characters
only, then trim leading and trailing whitespace. -/
def trimClaimC9 (s : String) : String :=
  let l1 := (s.data.reverse.dropWhile (fun c => c = '\r' || c = '\n')).reverse
  let l2 := l1.dropWhile (fun c => isSpaceChar c)
  String.mk ((l2.reverse.dropWhile (fun c => isSpaceChar c)).reverse)

/-- The amended description of the source's preprocessing: remove EVERY
carriage-return and newline character anywhere in the chunk, then trim
leading and trailing whitespace. -/
def trimAmended (s : String) : String :=
  let l1 := s.data.filter (fun c => c ≠ '\r' && c ≠ '\n')
  let l2 := l1.dropWhile (fun c => isSpaceChar c)
  String.mk ((l2.reverse.dropWhile (fun c => isSpaceChar c)).reverse)

/-! ## Association-list map lemmas -/

theorem findVal_mapSet_self {β : Type} (k : String) (v : β) (m : List (String × β)) :
    findVal k (mapSet k v m) = some v := by
  induction m with
  | nil => simp [mapSet, findVal]
  | cons a t ih =>
    by_cases h : a.1 = k
    · simp [mapSet, findVal, h]
    · simp [mapSet, findVal, h, ih]

theorem findVal_mapSet_ne {β : Type} {k k' : String} (v : β) (m : List (String × β))
    (h : k' ≠ k) : findVal k' (mapSet k v m) = findVal k' m := by
  have h' : k ≠ k' := fun hh => h hh.symm
  induction m with
  | nil => simp [mapSet, findVal, h']
  | cons a t ih =>
    by_cases ha : a.1 = k
    · simp [mapSet, findVal, ha, h']
    · by_cases hb : a.1 = k'
      · simp [mapSet, findVal, ha, hb, h]
      · simp [mapSet, findVal, ha, hb, ih]

theorem findVal_isSome_iff_mem {β : Type} (k : String) (m : List (String × β)) :
    (findVal k m).isSome = true ↔ k ∈ m.map Prod.fst := by
  induction m with
  | nil => simp [findVal]
  | cons a t ih =>
    by_cases h : a.1 = k
    · subst h; simp [findVal]
    · have h' : k ≠ a.1 := fun hh => h hh.symm
      rw [List.map_cons, List.mem_cons]
      simp [findVal, h, ih, h']

theorem findVal_eq_none_iff {β : Type} (k : String) (m : List (String × β)) :
    findVal k m = Option.none ↔ k ∉ m.map Prod.fst := by
  rw [← findVal_isSome_iff_mem]
  cases findVal k m <;> simp

theorem keys_mapSet_of_isSome {β : Type} {k : String} (v : β) {m : List (String × β)}
    (h : (findVal k m).isSome = true) :
    (mapSet k v m).map Prod.fst = m.map Prod.fst := by
  induction m with
  | nil => simp [findVal] at h
  | cons a t ih =>
    by_cases ha : a.1 = k
    · simp [mapSet, ha]
    · simp only [findVal, if_neg ha] at h
      simp [mapSet, ha, ih h]

theorem keys_mapSet_of_none {β : Type} {k : String} (v : β) {m : List (String × β)}
    (h : findVal k m = Option.none) :
    (mapSet k v m).map Prod.fst = m.map Prod.fst ++ [k] := by
  induction m with
  | nil => simp [mapSet]
  | cons a t ih =>
    by_cases ha : a.1 = k
    · simp only [findVal, if_pos ha] at h
      exact absurd h (by simp)
    · simp only [findVal, if_neg ha] at h
      simp [mapSet, ha, ih h]

theorem keys_nodup_mapSet {β : Type} (k : String) (v : β) {m : List (String × β)}
    (h : (m.map Prod.fst).Nodup) : ((mapSet k v m).map Prod.fst).Nodup := by
  rcases Option.eq_none_or_eq_some (findVal k m) with hn | ⟨w, hw⟩
  · rw [keys_mapSet_of_none v hn]
    have hk : k ∉ m.map Prod.fst := (findVal_eq_none_iff k m).1 hn
    exact ((List.perm_append_singleton k (m.map Prod.fst)).nodup_iff).2
      (List.nodup_cons.2 ⟨hk, h⟩)
  · rw [keys_mapSet_of_isSome v (by simp [hw])]
    exact h

theorem isSome_findVal_mapSet {β : Type} (r k : String) (v : β) (m : List (String × β)) :
    (findVal r (mapSet k v m)).isSome = true ↔ r = k ∨ (findVal r m).isSome = true := by
  by_cases h : r = k
  · subst h; simp [findVal_mapSet_self]
  · rw [findVal_mapSet_ne v m h]; simp [h]

theorem findVal_mapErase_ne {β : Type} {k k' : String} (m : List (String × β))
    (h : k' ≠ k) : findVal k' (mapErase k m) = findVal k' m := by
  induction m with
  | nil => simp [mapErase]
  | cons a t ih =>
    by_cases ha : a.1 = k
    · have hak : a.1 ≠ k' := by rw [ha]; exact fun hh => h hh.symm
      have h2 : k ≠ k' := fun hh => h hh.symm
      simp [mapErase, findVal, ha, hak, h2]
    · by_cases hb : a.1 = k'
      · simp [mapErase, findVal, ha, hb, h]
      · simp [mapErase, findVal, ha, hb, ih]

theorem keys_mapErase_sublist {β : Type} (k : String) (m : List (String × β)) :
    ((mapErase k m).map Prod.fst).Sublist (m.map Prod.fst) := by
  induction m with
  | nil => simp [mapErase]
  | cons a t ih =>
    by_cases ha : a.1 = k
    · rw [show mapErase k (a :: t) = t by simp [mapErase, ha]]
      simp only [List.map_cons]
      exact List.sublist_cons_self a.1 (t.map Prod.fst)
    · rw [show mapErase k (a :: t) = a :: mapErase k t by simp [mapErase, ha]]
      simp only [List.map_cons]
      exact ih.cons₂ a.1

theorem keys_nodup_mapErase {β : Type} (k : String) {m : List (String × β)}
    (h : (m.map Prod.fst).Nodup) : ((mapErase k m).map Prod.fst).Nodup :=
  (keys_mapErase_sublist k m).nodup h

theorem findVal_mapErase_self {β : Type} (k : String) {m : List (String × β)}
    (h : (m.map Prod.fst).Nodup) : findVal k (mapErase k m) = Option.none := by
  induction m with
  | nil => simp [mapErase, findVal]
  | cons a t ih =>
    rw [List.map_cons, List.nodup_cons] at h
    by_cases ha : a.1 = k
    · rw [show mapErase k (a :: t) = t by simp [mapErase, ha]]
      rw [findVal_eq_none_iff]
      rw [ha] at h
      exact h.1
    · rw [show mapErase k (a :: t) = a :: mapErase k t by simp [mapErase, ha]]
      simp only [findVal, if_neg ha]
      exact ih h.2

/-! ## Member-set lemmas -/

theorem mem_insertMem {j i : Nat} {l : List Nat} :
    j ∈ insertMem i l ↔ j ∈ l ∨ j = i := by
  by_cases h : i ∈ l
  · simp only [insertMem, if_pos h]
    constructor
    · exact Or.inl
    · rintro (hj | rfl)
      · exact hj
      · exact h
  · simp [insertMem, if_neg h]

theorem mem_eraseMem {j i : Nat} {l : List Nat} :
    j ∈ eraseMem i l ↔ j ∈ l ∧ j ≠ i := by
  simp [eraseMem]

theorem not_mem_eraseMem (i : Nat) (l : List Nat) : i ∉ eraseMem i l := by
  simp [mem_eraseMem]

/-! ## Delivery lemmas: `deliver` and every broadcast only append to `msgs` -/

@[simp] theorem deliver_sessions (s : Server) (i : Nat) (m : String) :
    (deliver s i m).sessions = s.sessions := rfl

@[simp] theorem deliver_rooms (s : Server) (i : Nat) (m : String) :
    (deliver s i m).rooms = s.rooms := rfl

@[simp] theorem deliver_users (s : Server) (i : Nat) (m : String) :
    (deliver s i m).users_by_name = s.users_by_name := rfl

@[simp] theorem deliver_st (s : Server) (i : Nat) (m : String) :
    (deliver s i m).st = s.st := rfl

@[simp] theorem deliver_nextId (s : Server) (i : Nat) (m : String) :
    (deliver s i m).nextId = s.nextId := rfl

@[simp] theorem deliver_color_index (s : Server) (i : Nat) (m : String) :
    (deliver s i m).color_index = s.color_index := rfl

@[simp] theorem deliver_msgs (s : Server) (i : Nat) (m : String) :
    (deliver s i m).msgs = s.msgs ++ [(i, m)] := rfl

theorem foldl_deliver_sessions (l : List Nat) (m : String) (s : Server) :
    (l.foldl (fun acc j => deliver acc j m) s).sessions = s.sessions := by
  induction l generalizing s with
  | nil => rfl
  | cons a t ih => simp [List.foldl_cons, ih]

theorem foldl_deliver_rooms (l : List Nat) (m : String) (s : Server) :
    (l.foldl (fun acc j => deliver acc j m) s).rooms = s.rooms := by
  induction l generalizing s with
  | nil => rfl
  | cons a t ih => simp [List.foldl_cons, ih]

theorem foldl_deliver_users (l : List Nat) (m : String) (s : Server) :
    (l.foldl (fun acc j => deliver acc j m) s).users_by_name = s.users_by_name := by
  induction l generalizing s with
  | nil => rfl
  | cons a t ih => simp [List.foldl_cons, ih]

theorem foldl_deliver_st (l : List Nat) (m : String) (s : Server) :
    (l.foldl (fun acc j => deliver acc j m) s).st = s.st := by
  induction l generalizing s with
  | nil => rfl
  | cons a t ih => simp [List.foldl_cons, ih]

theorem foldl_deliver_nextId (l : List Nat) (m : String) (s : Server) :
    (l.foldl (fun acc j => deliver acc j m) s).nextId = s.nextId := by
  induction l generalizing s with
  | nil => rfl
  | cons a t ih => simp [List.foldl_cons, ih]

theorem foldl_deliver_color_index (l : List Nat) (m : String) (s : Server) :
    (l.foldl (fun acc j => deliver acc j m) s).color_index = s.color_index := by
  induction l generalizing s with
  | nil => rfl
  | cons a t ih => simp [List.foldl_cons, ih]

theorem foldl_deliver_msgs (l : List Nat) (m : String) (s : Server) :
    (l.foldl (fun acc j => deliver acc j m) s).msgs
      = s.msgs ++ l.map (fun j => (j, m)) := by
  induction l generalizing s with
  | nil => simp
  | cons a t ih =>
    rw [List.foldl_cons, ih]
    simp [deliver, List.append_assoc]

theorem foldl_deliver_skip_sessions (l : List Nat) (i : Nat) (m : String) (s : Server) :
    (l.foldl (fun acc j => if j = i then acc else deliver acc j m) s).sessions
      = s.sessions := by
  induction l generalizing s with
  | nil => rfl
  | cons a t ih =>
    by_cases h : a = i <;> simp [List.foldl_cons, h, ih]

theorem foldl_deliver_skip_rooms (l : List Nat) (i : Nat) (m : String) (s : Server) :
    (l.foldl (fun acc j => if j = i then acc else deliver acc j m) s).rooms
      = s.rooms := by
  induction l generalizing s with
  | nil => rfl
  | cons a t ih =>
    by_cases h : a = i <;> simp [List.foldl_cons, h, ih]

theorem foldl_deliver_skip_users (l : List Nat) (i : Nat) (m : String) (s : Server) :
    (l.foldl (fun acc j => if j = i then acc else deliver acc j m) s).users_by_name
      = s.users_by_name := by
  induction l generalizing s with
  | nil => rfl
  | cons a t ih =>
    by_cases h : a = i <;> simp [List.foldl_cons, h, ih]

theorem foldl_deliver_skip_st (l : List Nat) (i : Nat) (m : String) (s : Server) :
    (l.foldl (fun acc j => if j = i then acc else deliver acc j m) s).st = s.st := by
  induction l generalizing s with
  | nil => rfl
  | cons a t ih =>
    by_cases h : a = i <;> simp [List.foldl_cons, h, ih]

theorem foldl_deliver_skip_nextId (l : List Nat) (i : Nat) (m : String) (s : Server) :
    (l.foldl (fun acc j => if j = i then acc else deliver acc j m) s).nextId
      = s.nextId := by
  induction l generalizing s with
  | nil => rfl
  | cons a t ih =>
    by_cases h : a = i <;> simp [List.foldl_cons, h, ih]

theorem foldl_deliver_skip_color_index (l : List Nat) (i : Nat) (m : String) (s : Server) :
    (l.foldl (fun acc j => if j = i then acc else deliver acc j m) s).color_index
      = s.color_index := by
  induction l generalizing s with
  | nil => rfl
  | cons a t ih =>
    by_cases h : a = i <;> simp [List.foldl_cons, h, ih]

theorem foldl_deliver_skip_msgs (l : List Nat) (i : Nat) (m : String) (s : Server) :
    (l.foldl (fun acc j => if j = i then acc else deliver acc j m) s).msgs
      = s.msgs ++ (l.filter (fun j => j ≠ i)).map (fun j => (j, m)) := by
  induction l generalizing s with
  | nil => simp
  | cons a t ih =>
    by_cases h : a = i
    · simp [List.foldl_cons, h, ih]
    · rw [List.foldl_cons, if_neg h, ih]
      simp [deliver, h, List.append_assoc]

theorem broadcast_all_sessions (s : Server) (m : String) :
    (broadcast_all s m).sessions = s.sessions := foldl_deliver_sessions _ _ _

theorem broadcast_all_rooms (s : Server) (m : String) :
    (broadcast_all s m).rooms = s.rooms := foldl_deliver_rooms _ _ _

theorem broadcast_all_users (s : Server) (m : String) :
    (broadcast_all s m).users_by_name = s.users_by_name := foldl_deliver_users _ _ _

theorem broadcast_all_st (s : Server) (m : String) :
    (broadcast_all s m).st = s.st := foldl_deliver_st _ _ _

theorem broadcast_all_nextId (s : Server) (m : String) :
    (broadcast_all s m).nextId = s.nextId := foldl_deliver_nextId _ _ _

theorem broadcast_all_color_index (s : Server) (m : String) :
    (broadcast_all s m).color_index = s.color_index := foldl_deliver_color_index _ _ _

theorem broadcast_all_msgs (s : Server) (m : String) :
    (broadcast_all s m).msgs = s.msgs ++ s.sessions.map (fun j => (j, m)) :=
  foldl_deliver_msgs _ _ _

theorem broadcast_room_sessions (s : Server) (r m : String) :
    (broadcast_room s r m).sessions = s.sessions := by
  unfold broadcast_room
  cases findVal r s.rooms with
  | none => rfl
  | some mem => exact foldl_deliver_sessions _ _ _

theorem broadcast_room_rooms (s : Server) (r m : String) :
    (broadcast_room s r m).rooms = s.rooms := by
  unfold broadcast_room
  cases findVal r s.rooms with
  | none => rfl
  | some mem => exact foldl_deliver_rooms _ _ _

theorem broadcast_room_users (s : Server) (r m : String) :
    (broadcast_room s r m).users_by_name = s.users_by_name := by
  unfold broadcast_room
  cases findVal r s.rooms with
  | none => rfl
  | some mem => exact foldl_deliver_users _ _ _

theorem broadcast_room_st (s : Server) (r m : String) :
    (broadcast_room s r m).st = s.st := by
  unfold broadcast_room
  cases findVal r s.rooms with
  | none => rfl
  | some mem => exact foldl_deliver_st _ _ _

theorem broadcast_room_nextId (s : Server) (r m : String) :
    (broadcast_room s r m).nextId = s.nextId := by
  unfold broadcast_room
  cases findVal r s.rooms with
  | none => rfl
  | some mem => exact foldl_deliver_nextId _ _ _

theorem broadcast_room_color_index (s : Server) (r m : String) :
    (broadcast_room s r m).color_index = s.color_index := by
  unfold broadcast_room
  cases findVal r s.rooms with
  | none => rfl
  | some mem => exact foldl_deliver_color_index _ _ _

theorem broadcast_room_msgs (s : Server) (r m : String) :
    (broadcast_room s r m).msgs
      = s.msgs ++ ((findVal r s.rooms).getD []).map (fun j => (j, m)) := by
  unfold broadcast_room
  cases findVal r s.rooms with
  | none => simp
  | some mem => simpa using foldl_deliver_msgs mem m s

/-! ## `room_leave_step` and `leave_all` characterization -/

theorem room_leave_step_of_notRoom (s : Server) (d : SessData) (i : Nat)
    (h : ¬(d.mode = Mode.Room ∧ d.active_room ≠ "")) :
    room_leave_step s d i = s := by
  simp only [room_leave_step, if_neg h]

theorem room_leave_step_of_noEntry (s : Server) (d : SessData) (i : Nat)
    (h : d.mode = Mode.Room ∧ d.active_room ≠ "")
    (hf : findVal d.active_room s.rooms = Option.none) :
    room_leave_step s d i = s := by
  simp only [room_leave_step, if_pos h, hf]

theorem room_leave_step_of_entry (s : Server) (d : SessData) (i : Nat) (mem : List Nat)
    (h : d.mode = Mode.Room ∧ d.active_room ≠ "")
    (hf : findVal d.active_room s.rooms = some mem) :
    room_leave_step s d i =
      { s with
        rooms := mapSet d.active_room (eraseMem i mem) s.rooms
        msgs := s.msgs ++ (eraseMem i mem).map (fun j =>
          (j, colored_name d ++ " left room " ++ d.active_room ++ ".\n")) } := by
  simp only [room_leave_step, if_pos h, hf]
  ext1
  · rw [broadcast_room_sessions]
  · rw [broadcast_room_rooms]
  · rw [broadcast_room_users]
  · rw [broadcast_room_st]
  · rw [broadcast_room_nextId]
  · rw [broadcast_room_color_index]
  · rw [broadcast_room_msgs]
    simp [findVal_mapSet_self]

theorem room_leave_step_sessions (s : Server) (d : SessData) (i : Nat) :
    (room_leave_step s d i).sessions = s.sessions := by
  by_cases h : d.mode = Mode.Room ∧ d.active_room ≠ ""
  · rcases hf : findVal d.active_room s.rooms with _ | mem
    · rw [room_leave_step_of_noEntry s d i h hf]
    · rw [room_leave_step_of_entry s d i mem h hf]
  · rw [room_leave_step_of_notRoom s d i h]

theorem room_leave_step_users (s : Server) (d : SessData) (i : Nat) :
    (room_leave_step s d i).users_by_name = s.users_by_name := by
  by_cases h : d.mode = Mode.Room ∧ d.active_room ≠ ""
  · rcases hf : findVal d.active_room s.rooms with _ | mem
    · rw [room_leave_step_of_noEntry s d i h hf]
    · rw [room_leave_step_of_entry s d i mem h hf]
  · rw [room_leave_step_of_notRoom s d i h]

theorem room_leave_step_st (s : Server) (d : SessData) (i : Nat) :
    (room_leave_step s d i).st = s.st := by
  by_cases h : d.mode = Mode.Room ∧ d.active_room ≠ ""
  · rcases hf : findVal d.active_room s.rooms with _ | mem
    · rw [room_leave_step_of_noEntry s d i h hf]
    · rw [room_leave_step_of_entry s d i mem h hf]
  · rw [room_leave_step_of_notRoom s d i h]

theorem room_leave_step_nextId (s : Server) (d : SessData) (i : Nat) :
    (room_leave_step s d i).nextId = s.nextId := by
  by_cases h : d.mode = Mode.Room ∧ d.active_room ≠ ""
  · rcases hf : findVal d.active_room s.rooms with _ | mem
    · rw [room_leave_step_of_noEntry s d i h hf]
    · rw [room_leave_step_of_entry s d i mem h hf]
  · rw [room_leave_step_of_notRoom s d i h]

theorem room_leave_step_color_index (s : Server) (d : SessData) (i : Nat) :
    (room_leave_step s d i).color_index = s.color_index := by
  by_cases h : d.mode = Mode.Room ∧ d.active_room ≠ ""
  · rcases hf : findVal d.active_room s.rooms with _ | mem
    · rw [room_leave_step_of_noEntry s d i h hf]
    · rw [room_leave_step_of_entry s d i mem h hf]
  · rw [room_leave_step_of_notRoom s d i h]

/-- Room-table effect of `room_leave_step`: either untouched, or the left
room's member set loses exactly the leaver. -/
theorem room_leave_step_rooms_cases (s : Server) (d : SessData) (i : Nat) :
    ((room_leave_step s d i).rooms = s.rooms ∧
      (¬(d.mode = Mode.Room ∧ d.active_room ≠ "") ∨
        findVal d.active_room s.rooms = Option.none)) ∨
    ∃ mem, d.mode = Mode.Room ∧ d.active_room ≠ "" ∧
      findVal d.active_room s.rooms = some mem ∧
      (room_leave_step s d i).rooms = mapSet d.active_room (eraseMem i mem) s.rooms := by
  by_cases h : d.mode = Mode.Room ∧ d.active_room ≠ ""
  · rcases hf : findVal d.active_room s.rooms with _ | mem
    · left; exact ⟨by rw [room_leave_step_of_noEntry s d i h hf], Or.inr rfl⟩
    · right; exact ⟨mem, h.1, h.2, rfl, by rw [room_leave_step_of_entry s d i mem h hf]⟩
  · left; exact ⟨by rw [room_leave_step_of_notRoom s d i h], Or.inl h⟩

/-- Every message emitted by `room_leave_step` goes to a member remaining
after the leaver's removal; in particular never to the leaver itself. -/
theorem room_leave_step_msgs_sub (s : Server) (d : SessData) (i : Nat) :
    ∀ e ∈ (room_leave_step s d i).msgs, e ∈ s.msgs ∨ e.1 ≠ i := by
  intro e he
  by_cases h : d.mode = Mode.Room ∧ d.active_room ≠ ""
  · rcases hf : findVal d.active_room s.rooms with _ | mem
    · rw [room_leave_step_of_noEntry s d i h hf] at he
      exact Or.inl he
    · rw [room_leave_step_of_entry s d i mem h hf] at he
      simp only [List.mem_append] at he
      rcases he with he | he
      · exact Or.inl he
      · right
        rcases List.mem_map.1 he with ⟨j, hj, rfl⟩
        exact fun hji => not_mem_eraseMem i mem (hji ▸ hj)
  · rw [room_leave_step_of_notRoom s d i h] at he
    exact Or.inl he

theorem leave_all_of_notRoom (s : Server) (i : Nat)
    (h : ¬((s.st i).mode = Mode.Room ∧ (s.st i).active_room ≠ "")) :
    leave_all s i = { s with st := updSt s.st i (clearCtx (s.st i)) } := by
  simp only [leave_all, room_leave_step_of_notRoom s (s.st i) i h]
  rfl

theorem leave_all_of_noEntry (s : Server) (i : Nat)
    (h : (s.st i).mode = Mode.Room ∧ (s.st i).active_room ≠ "")
    (hf : findVal (s.st i).active_room s.rooms = Option.none) :
    leave_all s i = { s with st := updSt s.st i (clearCtx (s.st i)) } := by
  simp only [leave_all, room_leave_step_of_noEntry s (s.st i) i h hf]
  rfl

theorem leave_all_of_entry (s : Server) (i : Nat) (mem : List Nat)
    (h : (s.st i).mode = Mode.Room ∧ (s.st i).active_room ≠ "")
    (hf : findVal (s.st i).active_room s.rooms = some mem) :
    leave_all s i =
      { s with
        rooms := mapSet (s.st i).active_room (eraseMem i mem) s.rooms
        msgs := s.msgs ++ (eraseMem i mem).map (fun j =>
          (j, colored_name (s.st i) ++ " left room " ++ (s.st i).active_room ++ ".\n"))
        st := updSt s.st i (clearCtx (s.st i)) } := by
  simp only [leave_all, room_leave_step_of_entry s (s.st i) i mem h hf]
  rfl

theorem leave_all_st (s : Server) (i : Nat) :
    (leave_all s i).st = updSt s.st i (clearCtx (s.st i)) := by
  by_cases h : (s.st i).mode = Mode.Room ∧ (s.st i).active_room ≠ ""
  · rcases hf : findVal (s.st i).active_room s.rooms with _ | mem
    · rw [leave_all_of_noEntry s i h hf]
    · rw [leave_all_of_entry s i mem h hf]
  · rw [leave_all_of_notRoom s i h]

theorem leave_all_sessions (s : Server) (i : Nat) :
    (leave_all s i).sessions = s.sessions := by
  by_cases h : (s.st i).mode = Mode.Room ∧ (s.st i).active_room ≠ ""
  · rcases hf : findVal (s.st i).active_room s.rooms with _ | mem
    · rw [leave_all_of_noEntry s i h hf]
    · rw [leave_all_of_entry s i mem h hf]
  · rw [leave_all_of_notRoom s i h]

theorem leave_all_users (s : Server) (i : Nat) :
    (leave_all s i).users_by_name = s.users_by_name := by
  by_cases h : (s.st i).mode = Mode.Room ∧ (s.st i).active_room ≠ ""
  · rcases hf : findVal (s.st i).active_room s.rooms with _ | mem
    · rw [leave_all_of_noEntry s i h hf]
    · rw [leave_all_of_entry s i mem h hf]
  · rw [leave_all_of_notRoom s i h]

theorem leave_all_nextId (s : Server) (i : Nat) :
    (leave_all s i).nextId = s.nextId := by
  by_cases h : (s.st i).mode = Mode.Room ∧ (s.st i).active_room ≠ ""
  · rcases hf : findVal (s.st i).active_room s.rooms with _ | mem
    · rw [leave_all_of_noEntry s i h hf]
    · rw [leave_all_of_entry s i mem h hf]
  · rw [leave_all_of_notRoom s i h]

theorem leave_all_color_index (s : Server) (i : Nat) :
    (leave_all s i).color_index = s.color_index := by
  by_cases h : (s.st i).mode = Mode.Room ∧ (s.st i).active_room ≠ ""
  · rcases hf : findVal (s.st i).active_room s.rooms with _ | mem
    · rw [leave_all_of_noEntry s i h hf]
    · rw [leave_all_of_entry s i mem h hf]
  · rw [leave_all_of_notRoom s i h]

/-- Room-table effect of `leave_all`: either untouched, or the left room's
member set loses exactly the leaver. -/
theorem leave_all_rooms_cases (s : Server) (i : Nat) :
    ((leave_all s i).rooms = s.rooms ∧
      (¬((s.st i).mode = Mode.Room ∧ (s.st i).active_room ≠ "") ∨
        findVal (s.st i).active_room s.rooms = Option.none)) ∨
    ∃ mem, (s.st i).mode = Mode.Room ∧ (s.st i).active_room ≠ "" ∧
      findVal (s.st i).active_room s.rooms = some mem ∧
      (leave_all s i).rooms = mapSet (s.st i).active_room (eraseMem i mem) s.rooms := by
  by_cases h : (s.st i).mode = Mode.Room ∧ (s.st i).active_room ≠ ""
  · rcases hf : findVal (s.st i).active_room s.rooms with _ | mem
    · left; exact ⟨by rw [leave_all_of_noEntry s i h hf], Or.inr rfl⟩
    · right; exact ⟨mem, h.1, h.2, rfl, by rw [leave_all_of_entry s i mem h hf]⟩
  · left; exact ⟨by rw [leave_all_of_notRoom s i h], Or.inl h⟩

/-- Every message emitted by `leave_all` goes to a member remaining after the
leaver's removal; in particular never to the leaver itself. -/
theorem leave_all_msgs_sub (s : Server) (i : Nat) :
    ∀ e ∈ (leave_all s i).msgs, e ∈ s.msgs ∨ e.1 ≠ i := by
  intro e he
  by_cases h : (s.st i).mode = Mode.Room ∧ (s.st i).active_room ≠ ""
  · rcases hf : findVal (s.st i).active_room s.rooms with _ | mem
    · rw [leave_all_of_noEntry s i h hf] at he
      exact Or.inl he
    · rw [leave_all_of_entry s i mem h hf] at he
      simp only [List.mem_append] at he
      rcases he with he | he
      · exact Or.inl he
      · right
        rcases List.mem_map.1 he with ⟨j, hj, rfl⟩
        exact fun hji => not_mem_eraseMem i mem (hji ▸ hj)
  · rw [leave_all_of_notRoom s i h] at he
    exact Or.inl he

/-! ## `cleanup_user_step` and `cleanup` characterization -/

theorem cleanup_user_step_sessions (s : Server) (nm : String) (i : Nat) :
    (cleanup_user_step s nm i).sessions = s.sessions := by
  simp only [cleanup_user_step]
  split
  · split <;> split <;> rfl
  · rfl

theorem cleanup_user_step_rooms (s : Server) (nm : String) (i : Nat) :
    (cleanup_user_step s nm i).rooms = s.rooms := by
  simp only [cleanup_user_step]
  split
  · split <;> split <;> rfl
  · rfl

theorem cleanup_user_step_st (s : Server) (nm : String) (i : Nat) :
    (cleanup_user_step s nm i).st = s.st := by
  simp only [cleanup_user_step]
  split
  · split <;> split <;> rfl
  · rfl

theorem cleanup_user_step_nextId (s : Server) (nm : String) (i : Nat) :
    (cleanup_user_step s nm i).nextId = s.nextId := by
  simp only [cleanup_user_step]
  split
  · split <;> split <;> rfl
  · rfl

theorem cleanup_user_step_color_index (s : Server) (nm : String) (i : Nat) :
    (cleanup_user_step s nm i).color_index = s.color_index := by
  simp only [cleanup_user_step]
  split
  · split <;> split <;> rfl
  · rfl

theorem cleanup_user_step_msgs (s : Server) (nm : String) (i : Nat) :
    (cleanup_user_step s nm i).msgs = s.msgs := by
  simp only [cleanup_user_step]
  split
  · split <;> split <;> rfl
  · rfl

/-- The four possible effects of the `users_by_name` block of `cleanup`. -/
theorem cleanup_user_step_users_cases (s : Server) (nm : String) (i : Nat) :
    (nm = "" ∧ (cleanup_user_step s nm i).users_by_name = s.users_by_name) ∨
    (nm ≠ "" ∧ findVal nm s.users_by_name = some (some i) ∧
      (cleanup_user_step s nm i).users_by_name = mapErase nm s.users_by_name) ∨
    (nm ≠ "" ∧ findVal nm s.users_by_name = Option.none ∧
      (cleanup_user_step s nm i).users_by_name
        = mapSet nm Option.none s.users_by_name) ∨
    (nm ≠ "" ∧ (∃ v, findVal nm s.users_by_name = some v ∧ v ≠ some i) ∧
      (cleanup_user_step s nm i).users_by_name = s.users_by_name) := by
  by_cases hn : nm = ""
  · left
    refine ⟨hn, ?_⟩
    simp [cleanup_user_step, hn]
  · rcases hv : findVal nm s.users_by_name with _ | v
    · right; right; left
      refine ⟨hn, rfl, ?_⟩
      simp only [cleanup_user_step, if_pos hn, hv]
      simp [findVal_mapSet_self]
    · by_cases hvi : v = some i
      · right; left
        refine ⟨hn, by rw [hvi], ?_⟩
        subst hvi
        simp only [cleanup_user_step, if_pos hn, hv]
        simp [hv]
      · right; right; right
        refine ⟨hn, ⟨v, rfl, hvi⟩, ?_⟩
        simp only [cleanup_user_step, if_pos hn, hv]
        simp [hv, hvi]

theorem cleanup_sessions (s : Server) (i : Nat) :
    (cleanup s i).sessions = eraseMem i s.sessions := by
  simp only [cleanup]
  split <;>
    simp [broadcast_all_sessions, room_leave_step_sessions, cleanup_user_step_sessions]

theorem cleanup_nextId (s : Server) (i : Nat) :
    (cleanup s i).nextId = s.nextId := by
  simp only [cleanup]
  split <;>
    simp [broadcast_all_nextId, room_leave_step_nextId, cleanup_user_step_nextId]

theorem cleanup_color_index (s : Server) (i : Nat) :
    (cleanup s i).color_index = s.color_index := by
  simp only [cleanup]
  split <;>
    simp [broadcast_all_color_index, room_leave_step_color_index,
      cleanup_user_step_color_index]

theorem cleanup_st (s : Server) (i : Nat) :
    (cleanup s i).st = updSt s.st i (clearCtx (s.st i)) := by
  simp only [cleanup]
  split <;>
    simp [broadcast_all_st, room_leave_step_st, cleanup_user_step_st, clearCtx]

theorem cleanup_users_eq_step (s : Server) (i : Nat) :
    (cleanup s i).users_by_name
      = (cleanup_user_step { s with sessions := eraseMem i s.sessions }
          (s.st i).name i).users_by_name := by
  simp only [cleanup]
  split <;> simp [broadcast_all_users, room_leave_step_users]

theorem cleanup_rooms_cases (s : Server) (i : Nat) :
    ((cleanup s i).rooms = s.rooms ∧
      (¬((s.st i).mode = Mode.Room ∧ (s.st i).active_room ≠ "") ∨
        findVal (s.st i).active_room s.rooms = Option.none)) ∨
    ∃ mem, (s.st i).mode = Mode.Room ∧ (s.st i).active_room ≠ "" ∧
      findVal (s.st i).active_room s.rooms = some mem ∧
      (cleanup s i).rooms = mapSet (s.st i).active_room (eraseMem i mem) s.rooms := by
  have hrooms2 : (cleanup_user_step { s with sessions := eraseMem i s.sessions }
      (s.st i).name i).rooms = s.rooms := by
    rw [cleanup_user_step_rooms]
  have hcl : (cleanup s i).rooms
      = (room_leave_step (cleanup_user_step { s with sessions := eraseMem i s.sessions }
          (s.st i).name i) (s.st i) i).rooms := by
    simp only [cleanup]
    split <;> simp [broadcast_all_rooms]
  rcases room_leave_step_rooms_cases (cleanup_user_step
      { s with sessions := eraseMem i s.sessions } (s.st i).name i) (s.st i) i with
    ⟨h, hside⟩ | ⟨mem, h1, h2, h3, h4⟩
  · left
    rw [hrooms2] at hside
    exact ⟨by rw [hcl, h, hrooms2], hside⟩
  · right
    rw [hrooms2] at h3
    exact ⟨mem, h1, h2, h3, by rw [hcl, h4, hrooms2]⟩

theorem cleanup_msgs_sub (s : Server) (i : Nat) :
    ∀ e ∈ (cleanup s i).msgs, e ∈ s.msgs ∨ e.1 ≠ i := by
  intro e he
  have hstep := room_leave_step_msgs_sub (cleanup_user_step
    { s with sessions := eraseMem i s.sessions } (s.st i).name i) (s.st i) i
  rw [cleanup_user_step_msgs] at hstep
  by_cases hn : (s.st i).has_name = true
  · simp only [cleanup, if_pos hn] at he
    rw [broadcast_all_msgs] at he
    simp only [List.mem_append] at he
    rcases he with he | he
    · exact hstep e (by simpa using he)
    · right
      rcases List.mem_map.1 he with ⟨j, hj, rfl⟩
      simp only [room_leave_step_sessions, cleanup_user_step_sessions] at hj
      exact fun hji => not_mem_eraseMem i s.sessions (hji ▸ hj)
  · simp only [cleanup, if_neg hn] at he
    exact hstep e (by simpa using he)

/-! ## `updSt` lemmas -/

theorem updSt_apply_self (f : Nat → SessData) (i : Nat) (d : SessData) :
    updSt f i d i = d := by
  simp [updSt]

theorem updSt_apply_ne (f : Nat → SessData) (i : Nat) (d : SessData) {j : Nat}
    (h : j ≠ i) : updSt f i d j = f j := by
  simp [updSt, h]

theorem updSt_updSt (f : Nat → SessData) (i : Nat) (a b : SessData) :
    updSt (updSt f i a) i b = updSt f i b := by
  funext j
  by_cases h : j = i <;> simp [updSt, h]

/-! ## `handle_name` characterization -/

theorem handle_name_of_taken (s : Server) (i : Nat) (nm : String)
    (h : (findVal nm s.users_by_name).isSome = true) :
    handle_name s i nm = deliver s i "Name already taken. Try another: " := by
  simp only [handle_name, if_pos h]

theorem handle_name_of_free (s : Server) (i : Nat) (nm : String)
    (h : (findVal nm s.users_by_name).isSome = false) :
    handle_name s i nm =
      { s with
        st := updSt s.st i { s.st i with name := nm, has_name := true }
        users_by_name := mapSet nm (some i) s.users_by_name
        msgs := s.msgs ++ [(i, "Hi " ++ colored_name { s.st i with name := nm, has_name := true } ++
            "! Commands: /join <room>, /pv <user>, /leave, /whereami, /rooms, /users\n")]
          ++ s.sessions.map (fun j =>
            (j, colored_name { s.st i with name := nm, has_name := true } ++
              " joined the server.\n")) } := by
  have hne : ¬((findVal nm s.users_by_name).isSome = true) := by simp [h]
  simp only [handle_name]
  rw [if_neg hne]
  ext1
  · simp [broadcast_all_sessions]
  · simp [broadcast_all_rooms]
  · simp [broadcast_all_users]
  · simp [broadcast_all_st]
  · simp [broadcast_all_nextId]
  · simp [broadcast_all_color_index]
  · rw [broadcast_all_msgs]
    simp [List.append_assoc]

/-! ## `switch_to_room` characterization -/

theorem switch_to_room_eq (s : Server) (i : Nat) (room : String) :
    switch_to_room s i room =
      { leave_all s i with
        st := updSt s.st i
          { clearCtx (s.st i) with mode := Mode.Room, active_room := room }
        rooms := mapSet room
          (insertMem i ((findVal room (leave_all s i).rooms).getD []))
          (leave_all s i).rooms
        msgs := (leave_all s i).msgs
          ++ (insertMem i ((findVal room (leave_all s i).rooms).getD [])).map (fun j =>
            (j, colored_name { clearCtx (s.st i) with mode := Mode.Room, active_room := room }
              ++ " joined room " ++ room ++ ".\n"))
          ++ [(i, "You are now in room " ++ room ++ ". Type to chat here.\n")] } := by
  have hst : (leave_all s i).st i = clearCtx (s.st i) := by
    rw [leave_all_st, updSt_apply_self]
  simp only [switch_to_room, hst]
  ext1
  · simp [broadcast_room_sessions]
  · simp [broadcast_room_rooms]
  · simp [broadcast_room_users]
  · simp only [deliver_st, broadcast_room_st]
    simp only [leave_all_st, updSt_updSt]
  · simp [broadcast_room_nextId]
  · simp [broadcast_room_color_index]
  · simp only [deliver_msgs, broadcast_room_msgs]
    simp [findVal_mapSet_self, List.append_assoc]

/-! ## `switch_to_pv` characterization -/

theorem switch_to_pv_of_absent (s : Server) (i : Nat) (target : String)
    (h : findVal target s.users_by_name = Option.none) :
    switch_to_pv s i target = deliver s i "User not found.\n" := by
  simp only [switch_to_pv, h]
  rfl

theorem switch_to_pv_of_self (s : Server) (i : Nat) (target : String)
    (h : (findVal target s.users_by_name).isSome = true)
    (hself : target = (s.st i).name) :
    switch_to_pv s i target = deliver s i "You cannot start PV with yourself.\n" := by
  have : ((findVal target s.users_by_name).isSome = false) = False := by simp [h]
  simp only [switch_to_pv, this, if_false, if_pos hself]

theorem switch_to_pv_of_valid (s : Server) (i : Nat) (target : String)
    (h : (findVal target s.users_by_name).isSome = true)
    (hself : target ≠ (s.st i).name) :
    switch_to_pv s i target =
      { leave_all s i with
        st := updSt s.st i
          { clearCtx (s.st i) with mode := Mode.Pv, active_pv := target }
        msgs := (leave_all s i).msgs
          ++ [(i, "Private chat with " ++ target ++ " started. Type to chat.\n")] } := by
  have h1 : ((findVal target s.users_by_name).isSome = false) = False := by simp [h]
  have hst : (leave_all s i).st i = clearCtx (s.st i) := by
    rw [leave_all_st, updSt_apply_self]
  simp only [switch_to_pv, h1, if_false, if_neg hself, hst]
  ext1
  · simp
  · simp
  · simp
  · simp only [deliver_st]
    simp only [leave_all_st, updSt_updSt]
  · simp
  · simp
  · simp

/-! ## `send_message` characterization -/

theorem send_message_room (s : Server) (i : Nat) (text : String) (mem : List Nat)
    (h : (s.st i).mode = Mode.Room ∧ (s.st i).active_room ≠ "")
    (hf : findVal (s.st i).active_room s.rooms = some mem) :
    send_message s i text =
      { s with msgs := s.msgs ++ (mem.filter (fun j => j ≠ i)).map (fun j =>
          (j, colored_name (s.st i) ++ " [" ++ (s.st i).active_room ++ "]: "
            ++ text ++ "\n")) } := by
  have hs : (findVal (s.st i).active_room s.rooms).isSome = true := by simp [hf]
  simp only [send_message, if_pos h, if_pos hs, hf]
  ext1
  · simp [foldl_deliver_skip_sessions]
  · simp [foldl_deliver_skip_rooms]
  · simp [foldl_deliver_skip_users]
  · simp [foldl_deliver_skip_st]
  · simp [foldl_deliver_skip_nextId]
  · simp [foldl_deliver_skip_color_index]
  · simp [foldl_deliver_skip_msgs, hf]

theorem send_message_pv_live (s : Server) (i j : Nat) (text : String)
    (h1 : ¬((s.st i).mode = Mode.Room ∧ (s.st i).active_room ≠ ""))
    (h2 : (s.st i).mode = Mode.Pv ∧ (s.st i).active_pv ≠ "")
    (hf : findVal (s.st i).active_pv s.users_by_name = some (some j)) :
    send_message s i text =
      { s with msgs := s.msgs
          ++ [(j, colored_name (s.st i) ++ " (PV): " ++ text ++ "\n")]
          ++ [(j, "You have new message in pv " ++ (s.st i).name ++ "\n")] } := by
  have hs : (findVal (s.st i).active_pv s.users_by_name).isSome = true := by simp [hf]
  simp only [send_message, if_neg h1, if_pos h2, if_pos hs]
  rw [hf]
  simp [deliver, List.append_assoc]

theorem send_message_pv_null (s : Server) (i : Nat) (text : String)
    (h1 : ¬((s.st i).mode = Mode.Room ∧ (s.st i).active_room ≠ ""))
    (h2 : (s.st i).mode = Mode.Pv ∧ (s.st i).active_pv ≠ "")
    (hf : findVal (s.st i).active_pv s.users_by_name = some Option.none) :
    send_message s i text = deliver s i "User went offline.\n" := by
  have hs : (findVal (s.st i).active_pv s.users_by_name).isSome = true := by simp [hf]
  simp only [send_message, if_neg h1, if_pos h2, if_pos hs, hf]
  simp [hf]

theorem send_message_pv_absent (s : Server) (i : Nat) (text : String)
    (h1 : ¬((s.st i).mode = Mode.Room ∧ (s.st i).active_room ≠ ""))
    (h2 : (s.st i).mode = Mode.Pv ∧ (s.st i).active_pv ≠ "")
    (hf : findVal (s.st i).active_pv s.users_by_name = Option.none) :
    send_message s i text =
      { s with
        users_by_name := mapSet (s.st i).active_pv Option.none s.users_by_name
        msgs := s.msgs ++ [(i, "User went offline.\n")] } := by
  have hs : (findVal (s.st i).active_pv s.users_by_name).isSome = false := by simp [hf]
  have hs' : ¬((findVal (s.st i).active_pv s.users_by_name).isSome = true) := by
    simp [hf]
  simp only [send_message, if_neg h1, if_pos h2]
  rw [if_neg hs']
  simp only [findVal_mapSet_self]
  rfl

theorem send_message_none (s : Server) (i : Nat) (text : String)
    (h1 : ¬((s.st i).mode = Mode.Room ∧ (s.st i).active_room ≠ ""))
    (h2 : ¬((s.st i).mode = Mode.Pv ∧ (s.st i).active_pv ≠ "")) :
    send_message s i text =
      deliver s i "You are not in a room or pv. Use /join <room> or /pv <user>\n" := by
  simp only [send_message, if_neg h1, if_neg h2]

/-! ## `trim` and `starts_with` lemmas -/

theorem head?_dropWhile {α : Type} (p : α → Bool) (l : List α) {c : α}
    (h : (l.dropWhile p).head? = some c) : p c = false := by
  induction l with
  | nil => simp [List.dropWhile] at h
  | cons a t ih =>
    by_cases ha : p a
    · rw [List.dropWhile_cons_of_pos ha] at h
      exact ih h
    · rw [List.dropWhile_cons_of_neg ha] at h
      simp at h
      subst h
      simpa using ha

theorem trimList_getLast? (l : List Char) {c : Char}
    (h : (trimList l).getLast? = some c) : isSpaceChar c = false := by
  simp only [trimList] at h
  rw [List.getLast?_reverse] at h
  exact head?_dropWhile _ _ h

theorem isPrefixList_eq_of_length_le (p t : List Char)
    (h : isPrefixList p t = true) (hlen : t.length ≤ p.length) : t = p := by
  induction p generalizing t with
  | nil =>
    cases t with
    | nil => rfl
    | cons b t' => simp at hlen
  | cons a p' ih =>
    cases t with
    | nil => simp [isPrefixList] at h
    | cons b t' =>
      simp only [isPrefixList, Bool.and_eq_true, decide_eq_true_eq] at h
      simp only [List.length_cons, Nat.add_le_add_iff_right] at hlen
      rw [h.1, ih t' h.2 hlen]

/-- A trimmed line that starts with `"/join "` has a nonempty room argument:
`trim` never leaves trailing whitespace, so the line cannot be `"/join "`
itself. -/
theorem trim_join_room_ne_empty (chunk : String)
    (h : starts_with (trim chunk) "/join " = true) :
    substrFrom (trim chunk) 6 ≠ "" := by
  intro hempty
  have hdata : (trim chunk).data.drop 6 = [] := congrArg String.data hempty
  have hlen : (trim chunk).data.length ≤ 6 := by
    rwa [List.drop_eq_nil_iff] at hdata
  have hpre : isPrefixList "/join ".data (trim chunk).data = true := h
  have hlen' : (trim chunk).data.length ≤ "/join ".data.length := by
    simpa using hlen
  have heq : (trim chunk).data = "/join ".data :=
    isPrefixList_eq_of_length_le _ _ hpre hlen'
  have htl : (trimList chunk.data).getLast? = some ' ' := by
    have : (trim chunk).data = trimList chunk.data := rfl
    rw [this] at heq
    rw [heq]
    decide
  have := trimList_getLast? chunk.data htl
  simp [isSpaceChar] at this

theorem filter_crlf (l : List Char) :
    (l.filter (fun c => c ≠ '\r')).filter (fun c => c ≠ '\n')
      = l.filter (fun c => c ≠ '\r' && c ≠ '\n') := by
  rw [List.filter_filter]
  apply List.filter_congr
  intro a _
  by_cases h1 : a = '\r' <;> by_cases h2 : a = '\n' <;> simp [h1, h2]

/-- The two-pass CR/NL removal of the source equals the one-pass description
used in the amended C9 wording. -/
theorem trim_eq_trimAmended (s : String) : trim s = trimAmended s := by
  simp only [trim, trimAmended, trimList, filter_crlf]

/-- An empty preprocessed line is discarded with no effect at all. -/
theorem on_read_of_empty (s : Server) (i : Nat) (chunk : String)
    (h : trim chunk = "") : on_read s i chunk = s := by
  simp [on_read, h]

/-! ## The inductive invariant of reachable states -/

/-- All the registry/session consistency facts that hold in every reachable
state and are preserved by every event-loop callback. -/
structure ServerInv (s : Server) : Prop where
  uKeys : (s.users_by_name.map Prod.fst).Nodup
  rKeys : (s.rooms.map Prod.fst).Nodup
  fresh : ∀ k, s.nextId ≤ k → s.st k = default
  live_lt : ∀ k, k ∈ s.sessions → k < s.nextId
  unnamed_name : ∀ k, (s.st k).has_name = false → (s.st k).name = ""
  unnamed_mode : ∀ k, (s.st k).has_name = false → (s.st k).mode = Mode.None
  unnamed_room : ∀ k, (s.st k).has_name = false → (s.st k).active_room = ""
  unnamed_pv : ∀ k, (s.st k).has_name = false → (s.st k).active_pv = ""
  named_ne : ∀ k, (s.st k).has_name = true → (s.st k).name ≠ ""
  uVal : ∀ nm j, findVal nm s.users_by_name = some (some j) →
    j ∈ s.sessions ∧ (s.st j).has_name = true ∧ (s.st j).name = nm
  reg : ∀ k, k ∈ s.sessions → (s.st k).has_name = true →
    findVal (s.st k).name s.users_by_name = some (some k)
  member : ∀ r mem, findVal r s.rooms = some mem → ∀ j,
    j ∈ mem ↔ ((s.st j).mode = Mode.Room ∧ (s.st j).active_room = r)
  room_live : ∀ j, (s.st j).mode = Mode.Room → j ∈ s.sessions
  room_ne : ∀ j, (s.st j).mode = Mode.Room → (s.st j).active_room ≠ ""
  room_found : ∀ j, (s.st j).mode = Mode.Room →
    (findVal (s.st j).active_room s.rooms).isSome = true

/-- `ServerInv` never mentions `msgs` or `color_index`, so it transports along any
change that keeps the other five fields. -/
theorem inv_of_eq_core (s s' : Server)
    (hs : s'.sessions = s.sessions) (hr : s'.rooms = s.rooms)
    (hu : s'.users_by_name = s.users_by_name) (hst : s'.st = s.st)
    (hn : s'.nextId = s.nextId) (h : ServerInv s) : ServerInv s' := by
  constructor
  · rw [hu]; exact h.uKeys
  · rw [hr]; exact h.rKeys
  · rw [hst, hn]; exact h.fresh
  · rw [hs, hn]; exact h.live_lt
  · rw [hst]; exact h.unnamed_name
  · rw [hst]; exact h.unnamed_mode
  · rw [hst]; exact h.unnamed_room
  · rw [hst]; exact h.unnamed_pv
  · rw [hst]; exact h.named_ne
  · rw [hu, hst, hs]; exact h.uVal
  · rw [hu, hst, hs]; exact h.reg
  · rw [hr, hst]; exact h.member
  · rw [hst, hs]; exact h.room_live
  · rw [hst]; exact h.room_ne
  · rw [hst, hr]; exact h.room_found

theorem inv_deliver (s : Server) (i : Nat) (m : String) (h : ServerInv s) :
    ServerInv (deliver s i m) :=
  inv_of_eq_core s (deliver s i m) rfl rfl rfl rfl rfl h

theorem inv_broadcast_all (s : Server) (m : String) (h : ServerInv s) :
    ServerInv (broadcast_all s m) :=
  inv_of_eq_core s (broadcast_all s m) (broadcast_all_sessions s m)
    (broadcast_all_rooms s m) (broadcast_all_users s m) (broadcast_all_st s m)
    (broadcast_all_nextId s m) h

theorem updSt_cases (f : Nat → SessData) (i : Nat) (d : SessData) (j : Nat) :
    updSt f i d j = if j = i then d else f j := rfl

theorem clearCtx_name (d : SessData) : (clearCtx d).name = d.name := rfl

theorem clearCtx_has_name (d : SessData) : (clearCtx d).has_name = d.has_name := rfl

theorem clearCtx_mode (d : SessData) : (clearCtx d).mode = Mode.None := rfl

theorem clearCtx_room (d : SessData) : (clearCtx d).active_room = "" := rfl

theorem clearCtx_pv (d : SessData) : (clearCtx d).active_pv = "" := rfl

theorem clearCtx_of_cleared {d : SessData} (hm : d.mode = Mode.None)
    (hr : d.active_room = "") (hp : d.active_pv = "") : clearCtx d = d := by
  cases d
  simp only [clearCtx]
  simp_all

theorem inv_start (s : Server) (h : ServerInv s) : ServerInv (start s) := by
  simp only [start]
  apply inv_deliver
  constructor <;> dsimp only
  · exact h.uKeys
  · exact h.rKeys
  · intro k hk
    rw [updSt_cases, if_neg (by omega)]
    exact h.fresh k (by omega)
  · intro k hk
    rcases mem_insertMem.1 hk with hk' | rfl
    · exact Nat.lt_succ_of_lt (h.live_lt k hk')
    · exact Nat.lt_succ_self _
  · intro k hk
    rw [updSt_cases] at hk ⊢
    by_cases hki : k = s.nextId
    · simp [hki]
    · simp only [if_neg hki] at hk ⊢
      exact h.unnamed_name k hk
  · intro k hk
    rw [updSt_cases] at hk ⊢
    by_cases hki : k = s.nextId
    · simp [hki]
    · simp only [if_neg hki] at hk ⊢
      exact h.unnamed_mode k hk
  · intro k hk
    rw [updSt_cases] at hk ⊢
    by_cases hki : k = s.nextId
    · simp [hki]
    · simp only [if_neg hki] at hk ⊢
      exact h.unnamed_room k hk
  · intro k hk
    rw [updSt_cases] at hk ⊢
    by_cases hki : k = s.nextId
    · simp [hki]
    · simp only [if_neg hki] at hk ⊢
      exact h.unnamed_pv k hk
  · intro k hk
    rw [updSt_cases] at hk ⊢
    by_cases hki : k = s.nextId
    · simp [hki] at hk
    · simp only [if_neg hki] at hk ⊢
      exact h.named_ne k hk
  · intro nm j hj
    obtain ⟨hj1, hj2, hj3⟩ := h.uVal nm j hj
    have hjne : j ≠ s.nextId := by
      have := h.live_lt j hj1
      omega
    refine ⟨mem_insertMem.2 (Or.inl hj1), ?_, ?_⟩ <;>
      (rw [updSt_cases, if_neg hjne]) <;> assumption
  · intro k hk hkn
    rcases mem_insertMem.1 hk with hk' | rfl
    · have hkne : k ≠ s.nextId := by
        have := h.live_lt k hk'
        omega
      rw [updSt_cases, if_neg hkne] at hkn ⊢
      exact h.reg k hk' hkn
    · rw [updSt_cases, if_pos rfl] at hkn
      simp at hkn
  · intro r mem hmem j
    rw [updSt_cases]
    by_cases hji : j = s.nextId
    · simp only [if_pos hji]
      have hfr : s.st j = default := h.fresh j (by omega)
      have := h.member r mem hmem j
      rw [hfr] at this
      simp only [this]
      constructor
      · intro hc
        exact absurd hc.1 (by simp [default])
      · intro hc
        exact absurd hc.1 (by simp [default])
    · simp only [if_neg hji]
      exact h.member r mem hmem j
  · intro j hj
    rw [updSt_cases] at hj
    by_cases hji : j = s.nextId
    · simp only [if_pos hji] at hj
      simp [default] at hj
    · simp only [if_neg hji] at hj
      exact mem_insertMem.2 (Or.inl (h.room_live j hj))
  · intro j hj
    rw [updSt_cases] at hj ⊢
    by_cases hji : j = s.nextId
    · simp only [if_pos hji] at hj
      simp [default] at hj
    · simp only [if_neg hji] at hj ⊢
      exact h.room_ne j hj
  · intro j hj
    rw [updSt_cases] at hj ⊢
    by_cases hji : j = s.nextId
    · simp only [if_pos hji] at hj
      simp [default] at hj
    · simp only [if_neg hji] at hj ⊢
      exact h.room_found j hj

theorem clearCtx_default : clearCtx default = default := rfl

/-- After a session's routing context is cleared and its room (if any) lost
that session as a member, the membership biconditional still holds. -/
theorem member_after_clear (s : Server) (h : ServerInv s) (i : Nat)
    (rooms' : List (String × List Nat))
    (hcases : (rooms' = s.rooms ∧
        (¬((s.st i).mode = Mode.Room ∧ (s.st i).active_room ≠ "") ∨
          findVal (s.st i).active_room s.rooms = Option.none)) ∨
      ∃ mem, (s.st i).mode = Mode.Room ∧ (s.st i).active_room ≠ "" ∧
        findVal (s.st i).active_room s.rooms = some mem ∧
        rooms' = mapSet (s.st i).active_room (eraseMem i mem) s.rooms) :
    ∀ r mem', findVal r rooms' = some mem' → ∀ j,
      j ∈ mem' ↔ ((updSt s.st i (clearCtx (s.st i)) j).mode = Mode.Room ∧
        (updSt s.st i (clearCtx (s.st i)) j).active_room = r) := by
  intro r mem' hmem' j
  rw [updSt_cases]
  by_cases hji : j = i
  · subst hji
    simp only [if_pos rfl, clearCtx_mode]
    constructor
    · intro hin
      exfalso
      rcases hcases with ⟨ha, hside⟩ | ⟨mem, hm, hrne, hf, hb⟩
      · rw [ha] at hmem'
        have hmode : (s.st j).mode = Mode.Room ∧ (s.st j).active_room = r :=
          (h.member r mem' hmem' j).1 hin
        rcases hside with hside | hside
        · exact hside ⟨hmode.1, h.room_ne j hmode.1⟩
        · rw [hmode.2, hmem'] at hside
          exact Option.noConfusion hside
      · by_cases hr : r = (s.st j).active_room
        · subst hr
          rw [hb, findVal_mapSet_self] at hmem'
          injection hmem' with hmem'
          rw [← hmem'] at hin
          exact not_mem_eraseMem j mem hin
        · rw [hb, findVal_mapSet_ne _ _ hr] at hmem'
          have hmode : (s.st j).mode = Mode.Room ∧ (s.st j).active_room = r :=
            (h.member r mem' hmem' j).1 hin
          exact hr hmode.2.symm
    · intro hc
      simp [clearCtx_mode] at hc
  · simp only [if_neg hji]
    rcases hcases with ⟨ha, hside⟩ | ⟨mem, hm, hrne, hf, hb⟩
    · rw [ha] at hmem'
      exact h.member r mem' hmem' j
    · by_cases hr : r = (s.st i).active_room
      · subst hr
        rw [hb, findVal_mapSet_self] at hmem'
        injection hmem' with hmem'
        rw [← hmem']
        rw [mem_eraseMem]
        have := h.member _ mem hf j
        constructor
        · rintro ⟨hjm, -⟩
          exact this.1 hjm
        · intro hc
          exact ⟨this.2 hc, hji⟩
      · rw [hb, findVal_mapSet_ne _ _ hr] at hmem'
        exact h.member r mem' hmem' j

/-- After the clear, every session still in Room mode still finds its room. -/
theorem room_found_after_clear (s : Server) (h : ServerInv s) (i : Nat)
    (rooms' : List (String × List Nat))
    (hcases : (rooms' = s.rooms ∧
        (¬((s.st i).mode = Mode.Room ∧ (s.st i).active_room ≠ "") ∨
          findVal (s.st i).active_room s.rooms = Option.none)) ∨
      ∃ mem, (s.st i).mode = Mode.Room ∧ (s.st i).active_room ≠ "" ∧
        findVal (s.st i).active_room s.rooms = some mem ∧
        rooms' = mapSet (s.st i).active_room (eraseMem i mem) s.rooms) :
    ∀ j, (updSt s.st i (clearCtx (s.st i)) j).mode = Mode.Room →
      (findVal (updSt s.st i (clearCtx (s.st i)) j).active_room rooms').isSome
        = true := by
  intro j hj
  rw [updSt_cases] at hj ⊢
  by_cases hji : j = i
  · simp only [if_pos hji, clearCtx_mode] at hj
    exact absurd hj (by simp)
  · simp only [if_neg hji] at hj ⊢
    have hold := h.room_found j hj
    rcases hcases with ⟨ha, -⟩ | ⟨mem, hm, hrne, hf, hb⟩
    · rw [ha]; exact hold
    · rw [hb, isSome_findVal_mapSet]
      exact Or.inr hold

theorem inv_leave_all (s : Server) (i : Nat) (h : ServerInv s) :
    ServerInv (leave_all s i) := by
  have hst := leave_all_st s i
  have hss := leave_all_sessions s i
  have hus := leave_all_users s i
  have hni := leave_all_nextId s i
  have hrc := leave_all_rooms_cases s i
  constructor
  · rw [hus]; exact h.uKeys
  · rcases hrc with ⟨ha, -⟩ | ⟨mem, -, -, -, hb⟩
    · rw [ha]; exact h.rKeys
    · rw [hb]; exact keys_nodup_mapSet _ _ h.rKeys
  · intro k hk
    rw [hni] at hk
    rw [hst, updSt_cases]
    by_cases hki : k = i
    · subst hki
      rw [if_pos rfl, h.fresh k hk, clearCtx_default]
    · rw [if_neg hki]
      exact h.fresh k hk
  · intro k hk
    rw [hss] at hk
    rw [hni]
    exact h.live_lt k hk
  · intro k
    rw [hst, updSt_cases]
    by_cases hki : k = i
    · simp only [if_pos hki, clearCtx_has_name, clearCtx_name]
      exact h.unnamed_name i
    · simp only [if_neg hki]
      exact h.unnamed_name k
  · intro k
    rw [hst, updSt_cases]
    by_cases hki : k = i
    · simp [if_pos hki, clearCtx_mode]
    · simp only [if_neg hki]
      exact h.unnamed_mode k
  · intro k
    rw [hst, updSt_cases]
    by_cases hki : k = i
    · simp [if_pos hki, clearCtx_room]
    · simp only [if_neg hki]
      exact h.unnamed_room k
  · intro k
    rw [hst, updSt_cases]
    by_cases hki : k = i
    · simp [if_pos hki, clearCtx_pv]
    · simp only [if_neg hki]
      exact h.unnamed_pv k
  · intro k
    rw [hst, updSt_cases]
    by_cases hki : k = i
    · subst hki
      simp only [if_pos rfl, clearCtx_has_name, clearCtx_name]
      exact h.named_ne k
    · simp only [if_neg hki]
      exact h.named_ne k
  · intro nm j hj
    rw [hus] at hj
    obtain ⟨h1, h2, h3⟩ := h.uVal nm j hj
    rw [hss, hst, updSt_cases]
    by_cases hji : j = i
    · subst hji
      simp only [if_pos rfl, clearCtx_has_name, clearCtx_name]
      exact ⟨h1, h2, h3⟩
    · simp only [if_neg hji]
      exact ⟨h1, h2, h3⟩
  · intro k hk hkn
    rw [hss] at hk
    rw [hus, hst, updSt_cases] at *
    by_cases hki : k = i
    · subst hki
      simp only [if_pos rfl, clearCtx_has_name, clearCtx_name] at hkn ⊢
      exact h.reg k hk hkn
    · simp only [if_neg hki] at hkn ⊢
      exact h.reg k hk hkn
  · rw [hst]
    exact member_after_clear s h i (leave_all s i).rooms hrc
  · intro j hj
    rw [hst, updSt_cases] at hj
    rw [hss]
    by_cases hji : j = i
    · simp [if_pos hji, clearCtx_mode] at hj
    · simp only [if_neg hji] at hj
      exact h.room_live j hj
  · intro j hj
    rw [hst, updSt_cases] at hj ⊢
    by_cases hji : j = i
    · simp [if_pos hji, clearCtx_mode] at hj
    · simp only [if_neg hji] at hj ⊢
      exact h.room_ne j hj
  · rw [hst]
    exact room_found_after_clear s h i (leave_all s i).rooms hrc

/-- The three possible `users_by_name` outcomes of a whole `cleanup`. -/
theorem cleanup_users_cases (s : Server) (i : Nat) :
    ((cleanup s i).users_by_name = s.users_by_name ∧
      ((s.st i).name = "" ∨ ∃ v, findVal (s.st i).name s.users_by_name = some v ∧
        v ≠ some i)) ∨
    ((s.st i).name ≠ "" ∧ findVal (s.st i).name s.users_by_name = some (some i) ∧
      (cleanup s i).users_by_name = mapErase (s.st i).name s.users_by_name) ∨
    ((s.st i).name ≠ "" ∧ findVal (s.st i).name s.users_by_name = Option.none ∧
      (cleanup s i).users_by_name
        = mapSet (s.st i).name Option.none s.users_by_name) := by
  have heq := cleanup_users_eq_step s i
  have hcases := cleanup_user_step_users_cases
    { s with sessions := eraseMem i s.sessions } (s.st i).name i
  dsimp only at hcases
  rcases hcases with ⟨h1, h2⟩ | ⟨h1, h2, h3⟩ | ⟨h1, h2, h3⟩ | ⟨h1, h2, h3⟩
  · left; exact ⟨by rw [heq, h2], Or.inl h1⟩
  · right; left; exact ⟨h1, h2, by rw [heq, h3]⟩
  · right; right; exact ⟨h1, h2, by rw [heq, h3]⟩
  · left; exact ⟨by rw [heq, h3], Or.inr h2⟩

theorem inv_cleanup (s : Server) (i : Nat) (h : ServerInv s) :
    ServerInv (cleanup s i) := by
  have hst := cleanup_st s i
  have hss := cleanup_sessions s i
  have hni := cleanup_nextId s i
  have hrc := cleanup_rooms_cases s i
  have huc := cleanup_users_cases s i
  constructor
  · rcases huc with ⟨ha, -⟩ | ⟨-, -, hb⟩ | ⟨-, -, hc⟩
    · rw [ha]; exact h.uKeys
    · rw [hb]; exact keys_nodup_mapErase _ h.uKeys
    · rw [hc]; exact keys_nodup_mapSet _ _ h.uKeys
  · rcases hrc with ⟨ha, -⟩ | ⟨mem, -, -, -, hb⟩
    · rw [ha]; exact h.rKeys
    · rw [hb]; exact keys_nodup_mapSet _ _ h.rKeys
  · intro k hk
    rw [hni] at hk
    rw [hst, updSt_cases]
    by_cases hki : k = i
    · subst hki
      rw [if_pos rfl, h.fresh k hk, clearCtx_default]
    · rw [if_neg hki]
      exact h.fresh k hk
  · intro k hk
    rw [hss] at hk
    rw [hni]
    exact h.live_lt k (mem_eraseMem.1 hk).1
  · intro k
    rw [hst, updSt_cases]
    by_cases hki : k = i
    · simp only [if_pos hki, clearCtx_has_name, clearCtx_name]
      exact h.unnamed_name i
    · simp only [if_neg hki]
      exact h.unnamed_name k
  · intro k
    rw [hst, updSt_cases]
    by_cases hki : k = i
    · simp [if_pos hki, clearCtx_mode]
    · simp only [if_neg hki]
      exact h.unnamed_mode k
  · intro k
    rw [hst, updSt_cases]
    by_cases hki : k = i
    · simp [if_pos hki, clearCtx_room]
    · simp only [if_neg hki]
      exact h.unnamed_room k
  · intro k
    rw [hst, updSt_cases]
    by_cases hki : k = i
    · simp [if_pos hki, clearCtx_pv]
    · simp only [if_neg hki]
      exact h.unnamed_pv k
  · intro k
    rw [hst, updSt_cases]
    by_cases hki : k = i
    · simp only [if_pos hki, clearCtx_has_name, clearCtx_name]
      exact h.named_ne i
    · simp only [if_neg hki]
      exact h.named_ne k
  · intro nm j hj
    have hjne : j ≠ i ∧ j ∈ s.sessions ∧ (s.st j).has_name = true ∧
        (s.st j).name = nm := by
      rcases huc with ⟨ha, hside⟩ | ⟨h1, h2, hb⟩ | ⟨h1, h2, hc⟩
      · rw [ha] at hj
        obtain ⟨hj1, hj2, hj3⟩ := h.uVal nm j hj
        refine ⟨?_, hj1, hj2, hj3⟩
        intro hji
        subst hji
        rcases hside with hside | ⟨v, hv, hvne⟩
        · exact h.named_ne j hj2 hside
        · rw [hj3] at hv
          rw [hj] at hv
          exact hvne (by injection hv with hv; exact hv.symm)
      · by_cases hnm : nm = (s.st i).name
        · subst hnm
          rw [hb, findVal_mapErase_self _ h.uKeys] at hj
          exact Option.noConfusion hj
        · rw [hb, findVal_mapErase_ne _ hnm] at hj
          obtain ⟨hj1, hj2, hj3⟩ := h.uVal nm j hj
          refine ⟨?_, hj1, hj2, hj3⟩
          intro hji
          subst hji
          exact hnm (by rw [← hj3])
      · by_cases hnm : nm = (s.st i).name
        · subst hnm
          rw [hc, findVal_mapSet_self] at hj
          injection hj with hj
          exact Option.noConfusion hj
        · rw [hc, findVal_mapSet_ne _ _ hnm] at hj
          obtain ⟨hj1, hj2, hj3⟩ := h.uVal nm j hj
          refine ⟨?_, hj1, hj2, hj3⟩
          intro hji
          subst hji
          exact hnm (by rw [← hj3])
    obtain ⟨hji, hj1, hj2, hj3⟩ := hjne
    rw [hss, hst, updSt_cases]
    rw [if_neg hji]
    exact ⟨mem_eraseMem.2 ⟨hj1, hji⟩, hj2, hj3⟩
  · intro k hk hkn
    rw [hss] at hk
    obtain ⟨hk1, hki⟩ := mem_eraseMem.1 hk
    rw [hst, updSt_cases, if_neg hki] at hkn
    rw [hst, updSt_cases, if_neg hki]
    have hreg := h.reg k hk1 hkn
    rcases huc with ⟨ha, -⟩ | ⟨h1, h2, hb⟩ | ⟨h1, h2, hc⟩
    · rw [ha]; exact hreg
    · have hne : (s.st k).name ≠ (s.st i).name := by
        intro heq
        rw [heq, h2] at hreg
        injection hreg with hreg
        injection hreg with hreg
        exact hki hreg.symm
      rw [hb, findVal_mapErase_ne _ hne]
      exact hreg
    · have hne : (s.st k).name ≠ (s.st i).name := by
        intro heq
        rw [heq, h2] at hreg
        exact Option.noConfusion hreg
      rw [hc, findVal_mapSet_ne _ _ hne]
      exact hreg
  · rw [hst]
    exact member_after_clear s h i (cleanup s i).rooms hrc
  · intro j hj
    rw [hst, updSt_cases] at hj
    rw [hss]
    by_cases hji : j = i
    · simp [if_pos hji, clearCtx_mode] at hj
    · simp only [if_neg hji] at hj
      exact mem_eraseMem.2 ⟨h.room_live j hj, hji⟩
  · intro j hj
    rw [hst, updSt_cases] at hj ⊢
    by_cases hji : j = i
    · simp [if_pos hji, clearCtx_mode] at hj
    · simp only [if_neg hji] at hj ⊢
      exact h.room_ne j hj
  · rw [hst]
    exact room_found_after_clear s h i (cleanup s i).rooms hrc

theorem inv_handle_name (s : Server) (i : Nat) (nm : String)
    (hi : i ∈ s.sessions) (hun : (s.st i).has_name = false) (hnm : nm ≠ "")
    (h : ServerInv s) : ServerInv (handle_name s i nm) := by
  by_cases ht : (findVal nm s.users_by_name).isSome = true
  · rw [handle_name_of_taken s i nm ht]
    exact inv_deliver s i _ h
  · have ht' : (findVal nm s.users_by_name).isSome = false := by simpa using ht
    rw [handle_name_of_free s i nm ht']
    have hilt := h.live_lt i hi
    constructor <;> dsimp only
    · exact keys_nodup_mapSet _ _ h.uKeys
    · exact h.rKeys
    · intro k hk
      rw [updSt_cases, if_neg (by omega)]
      exact h.fresh k hk
    · exact h.live_lt
    · intro k
      rw [updSt_cases]
      by_cases hki : k = i
      · simp [if_pos hki]
      · simp only [if_neg hki]
        exact h.unnamed_name k
    · intro k
      rw [updSt_cases]
      by_cases hki : k = i
      · simp [if_pos hki]
      · simp only [if_neg hki]
        exact h.unnamed_mode k
    · intro k
      rw [updSt_cases]
      by_cases hki : k = i
      · simp [if_pos hki]
      · simp only [if_neg hki]
        exact h.unnamed_room k
    · intro k
      rw [updSt_cases]
      by_cases hki : k = i
      · simp [if_pos hki]
      · simp only [if_neg hki]
        exact h.unnamed_pv k
    · intro k
      rw [updSt_cases]
      by_cases hki : k = i
      · intro _
        simpa [if_pos hki] using hnm
      · simp only [if_neg hki]
        exact h.named_ne k
    · intro nm' j hj
      by_cases hnm' : nm' = nm
      · subst hnm'
        rw [findVal_mapSet_self] at hj
        injection hj with hj
        injection hj with hj
        subst hj
        rw [updSt_cases, if_pos rfl]
        exact ⟨hi, rfl, rfl⟩
      · rw [findVal_mapSet_ne _ _ hnm'] at hj
        obtain ⟨hj1, hj2, hj3⟩ := h.uVal nm' j hj
        have hji : j ≠ i := by
          intro hje
          rw [hje] at hj2
          rw [hj2] at hun
          exact Bool.noConfusion hun
        rw [updSt_cases, if_neg hji]
        exact ⟨hj1, hj2, hj3⟩
    · intro k hk hkn
      rw [updSt_cases] at hkn ⊢
      by_cases hki : k = i
      · simp only [if_pos hki]
        rw [if_pos hki] at hkn
        subst hki
        rw [findVal_mapSet_self]
      · rw [if_neg hki] at hkn ⊢
        have hknm : (s.st k).name ≠ nm := by
          intro heq
          have := h.reg k hk hkn
          rw [heq] at this
          rw [this] at ht'
          exact Bool.noConfusion ht'
        rw [findVal_mapSet_ne _ _ hknm]
        exact h.reg k hk hkn
    · intro r mem hmem j
      rw [updSt_cases]
      by_cases hji : j = i
      · subst hji
        rw [if_pos rfl]
        constructor
        · intro hin
          exfalso
          have hc := (h.member r mem hmem j).1 hin
          rw [h.unnamed_mode j hun] at hc
          exact absurd hc.1 (by simp)
        · intro hc
          exfalso
          have hc1 : (s.st j).mode = Mode.Room := hc.1
          rw [h.unnamed_mode j hun] at hc1
          exact absurd hc1 (by simp)
      · rw [if_neg hji]
        exact h.member r mem hmem j
    · intro j hj
      rw [updSt_cases] at hj
      by_cases hji : j = i
      · subst hji
        rw [if_pos rfl] at hj
        have hj1 : (s.st j).mode = Mode.Room := hj
        rw [h.unnamed_mode j hun] at hj1
        exact absurd hj1 (by simp)
      · rw [if_neg hji] at hj
        exact h.room_live j hj
    · intro j hj
      rw [updSt_cases] at hj ⊢
      by_cases hji : j = i
      · subst hji
        rw [if_pos rfl] at hj
        have hj1 : (s.st j).mode = Mode.Room := hj
        rw [h.unnamed_mode j hun] at hj1
        exact absurd hj1 (by simp)
      · rw [if_neg hji] at hj ⊢
        exact h.room_ne j hj
    · intro j hj
      rw [updSt_cases] at hj ⊢
      by_cases hji : j = i
      · subst hji
        rw [if_pos rfl] at hj
        have hj1 : (s.st j).mode = Mode.Room := hj
        rw [h.unnamed_mode j hun] at hj1
        exact absurd hj1 (by simp)
      · rw [if_neg hji] at hj ⊢
        exact h.room_found j hj

theorem inv_switch_to_room (s : Server) (i : Nat) (room : String)
    (hi : i ∈ s.sessions) (hn : (s.st i).has_name = true) (hroom : room ≠ "")
    (h : ServerInv s) : ServerInv (switch_to_room s i room) := by
  have hL := inv_leave_all s i h
  have hLst := leave_all_st s i
  have hLss := leave_all_sessions s i
  have hLus := leave_all_users s i
  have hLni := leave_all_nextId s i
  have hilt := h.live_lt i hi
  rw [switch_to_room_eq]
  constructor <;> dsimp only
  · rw [hLus]; exact h.uKeys
  · exact keys_nodup_mapSet _ _ hL.rKeys
  · intro k hk
    rw [hLni] at hk
    rw [updSt_cases, if_neg (by omega)]
    exact h.fresh k hk
  · intro k hk
    rw [hLss] at hk
    rw [hLni]
    exact h.live_lt k hk
  · intro k
    rw [updSt_cases]
    by_cases hki : k = i
    · subst hki
      intro hc
      have hc1 : (s.st k).has_name = false := by
        rw [if_pos rfl] at hc
        exact hc
      rw [hc1] at hn
      exact Bool.noConfusion hn
    · rw [if_neg hki]
      exact h.unnamed_name k
  · intro k
    rw [updSt_cases]
    by_cases hki : k = i
    · subst hki
      intro hc
      have hc1 : (s.st k).has_name = false := by
        rw [if_pos rfl] at hc
        exact hc
      rw [hc1] at hn
      exact Bool.noConfusion hn
    · rw [if_neg hki]
      exact h.unnamed_mode k
  · intro k
    rw [updSt_cases]
    by_cases hki : k = i
    · subst hki
      intro hc
      have hc1 : (s.st k).has_name = false := by
        rw [if_pos rfl] at hc
        exact hc
      rw [hc1] at hn
      exact Bool.noConfusion hn
    · rw [if_neg hki]
      exact h.unnamed_room k
  · intro k
    rw [updSt_cases]
    by_cases hki : k = i
    · subst hki
      intro hc
      have hc1 : (s.st k).has_name = false := by
        rw [if_pos rfl] at hc
        exact hc
      rw [hc1] at hn
      exact Bool.noConfusion hn
    · rw [if_neg hki]
      exact h.unnamed_pv k
  · intro k
    rw [updSt_cases]
    by_cases hki : k = i
    · subst hki
      intro _
      have : (s.st k).name ≠ "" := h.named_ne k hn
      rw [if_pos rfl]
      exact this
    · rw [if_neg hki]
      exact h.named_ne k
  · intro nm j hj
    rw [hLus] at hj
    obtain ⟨hj1, hj2, hj3⟩ := h.uVal nm j hj
    rw [hLss, updSt_cases]
    by_cases hji : j = i
    · subst hji
      rw [if_pos rfl]
      exact ⟨hj1, hj2, hj3⟩
    · rw [if_neg hji]
      exact ⟨hj1, hj2, hj3⟩
  · intro k hk hkn
    rw [hLss] at hk
    rw [hLus]
    rw [updSt_cases] at hkn ⊢
    by_cases hki : k = i
    · subst hki
      rw [if_pos rfl]
      have hname : ({ clearCtx (s.st k) with
          mode := Mode.Room, active_room := room } : SessData).name
            = (s.st k).name := rfl
      rw [hname]
      exact h.reg k hk hn
    · rw [if_neg hki] at hkn ⊢
      exact h.reg k hk hkn
  · intro r mem' hmem' j
    rw [updSt_cases]
    by_cases hr : r = room
    · subst hr
      rw [findVal_mapSet_self] at hmem'
      injection hmem' with hmem'
      rw [← hmem', mem_insertMem]
      by_cases hji : j = i
      · subst hji
        rw [if_pos rfl]
        simp
      · rw [if_neg hji]
        have hstj : (leave_all s i).st j = s.st j := by
          rw [hLst, updSt_cases, if_neg hji]
        constructor
        · rintro (hjm | hje)
          · rcases hgd : findVal r (leave_all s i).rooms with _ | m
            · rw [hgd] at hjm
              simp at hjm
            · rw [hgd] at hjm
              have := (hL.member r m hgd j).1 (by simpa using hjm)
              rw [hstj] at this
              exact this
          · exact absurd hje hji
        · intro hc
          left
          have hfound := hL.room_found j (by rw [hstj]; exact hc.1)
          rw [hstj, hc.2] at hfound
          rcases hgd : findVal r (leave_all s i).rooms with _ | m
          · rw [hgd] at hfound
            exact Bool.noConfusion hfound
          · have := (hL.member r m hgd j).2 (by rw [hstj]; exact hc)
            simpa using this
    · rw [findVal_mapSet_ne _ _ hr] at hmem'
      have hiff := hL.member r mem' hmem' j
      by_cases hji : j = i
      · subst hji
        rw [if_pos rfl]
        rw [hLst, updSt_apply_self] at hiff
        rw [hiff]
        rw [clearCtx_mode]
        constructor
        · intro hc
          exact absurd hc.1 (by simp)
        · intro hc
          have hc2 : room = r := hc.2
          exact absurd hc2.symm hr
      · rw [if_neg hji]
        rw [hLst, updSt_cases, if_neg hji] at hiff
        exact hiff
  · intro j hj
    rw [updSt_cases] at hj
    rw [hLss]
    by_cases hji : j = i
    · subst hji
      exact hi
    · rw [if_neg hji] at hj
      exact h.room_live j hj
  · intro j hj
    rw [updSt_cases] at hj ⊢
    by_cases hji : j = i
    · subst hji
      rw [if_pos rfl]
      exact hroom
    · rw [if_neg hji] at hj ⊢
      exact h.room_ne j hj
  · intro j hj
    rw [updSt_cases] at hj ⊢
    by_cases hji : j = i
    · subst hji
      rw [if_pos rfl]
      rw [isSome_findVal_mapSet]
      exact Or.inl rfl
    · rw [if_neg hji] at hj ⊢
      rw [isSome_findVal_mapSet]
      right
      have hstj : (leave_all s i).st j = s.st j := by
        rw [hLst, updSt_cases, if_neg hji]
      have := hL.room_found j (by rw [hstj]; exact hj)
      rw [hstj] at this
      exact this

theorem inv_switch_to_pv (s : Server) (i : Nat) (target : String)
    (hi : i ∈ s.sessions) (hn : (s.st i).has_name = true)
    (h : ServerInv s) : ServerInv (switch_to_pv s i target) := by
  rcases hf : findVal target s.users_by_name with _ | v
  · rw [switch_to_pv_of_absent s i target hf]
    exact inv_deliver s i _ h
  · have hsome : (findVal target s.users_by_name).isSome = true := by simp [hf]
    by_cases hself : target = (s.st i).name
    · rw [switch_to_pv_of_self s i target hsome hself]
      exact inv_deliver s i _ h
    · rw [switch_to_pv_of_valid s i target hsome hself]
      have hL := inv_leave_all s i h
      have hLst := leave_all_st s i
      have hLss := leave_all_sessions s i
      have hLus := leave_all_users s i
      have hLni := leave_all_nextId s i
      have hilt := h.live_lt i hi
      constructor <;> dsimp only
      · rw [hLus]; exact h.uKeys
      · exact hL.rKeys
      · intro k hk
        rw [hLni] at hk
        rw [updSt_cases, if_neg (by omega)]
        exact h.fresh k hk
      · intro k hk
        rw [hLss] at hk
        rw [hLni]
        exact h.live_lt k hk
      · intro k
        rw [updSt_cases]
        by_cases hki : k = i
        · subst hki
          intro hc
          have hc1 : (s.st k).has_name = false := by
            rw [if_pos rfl] at hc
            exact hc
          rw [hc1] at hn
          exact Bool.noConfusion hn
        · rw [if_neg hki]
          exact h.unnamed_name k
      · intro k
        rw [updSt_cases]
        by_cases hki : k = i
        · subst hki
          intro hc
          have hc1 : (s.st k).has_name = false := by
            rw [if_pos rfl] at hc
            exact hc
          rw [hc1] at hn
          exact Bool.noConfusion hn
        · rw [if_neg hki]
          exact h.unnamed_mode k
      · intro k
        rw [updSt_cases]
        by_cases hki : k = i
        · subst hki
          intro hc
          have hc1 : (s.st k).has_name = false := by
            rw [if_pos rfl] at hc
            exact hc
          rw [hc1] at hn
          exact Bool.noConfusion hn
        · rw [if_neg hki]
          exact h.unnamed_room k
      · intro k
        rw [updSt_cases]
        by_cases hki : k = i
        · subst hki
          intro hc
          have hc1 : (s.st k).has_name = false := by
            rw [if_pos rfl] at hc
            exact hc
          rw [hc1] at hn
          exact Bool.noConfusion hn
        · rw [if_neg hki]
          exact h.unnamed_pv k
      · intro k
        rw [updSt_cases]
        by_cases hki : k = i
        · subst hki
          intro _
          rw [if_pos rfl]
          exact h.named_ne k hn
        · rw [if_neg hki]
          exact h.named_ne k
      · intro nm j hj
        rw [hLus] at hj
        obtain ⟨hj1, hj2, hj3⟩ := h.uVal nm j hj
        rw [hLss, updSt_cases]
        by_cases hji : j = i
        · subst hji
          rw [if_pos rfl]
          exact ⟨hj1, hj2, hj3⟩
        · rw [if_neg hji]
          exact ⟨hj1, hj2, hj3⟩
      · intro k hk hkn
        rw [hLss] at hk
        rw [hLus]
        rw [updSt_cases] at hkn ⊢
        by_cases hki : k = i
        · subst hki
          rw [if_pos rfl]
          exact h.reg k hk hn
        · rw [if_neg hki] at hkn ⊢
          exact h.reg k hk hkn
      · intro r mem' hmem' j
        rw [updSt_cases]
        have hiff := hL.member r mem' hmem' j
        by_cases hji : j = i
        · subst hji
          rw [if_pos rfl]
          rw [hLst, updSt_apply_self, clearCtx_mode] at hiff
          rw [hiff]
          constructor
          · intro hc
            exact absurd hc.1 (by simp)
          · intro hc
            have hc1 : Mode.Pv = Mode.Room := hc.1
            exact absurd hc1 (by simp)
        · rw [if_neg hji]
          rw [hLst, updSt_cases, if_neg hji] at hiff
          exact hiff
      · intro j hj
        rw [updSt_cases] at hj
        rw [hLss]
        by_cases hji : j = i
        · subst hji
          rw [if_pos rfl] at hj
          have hj1 : Mode.Pv = Mode.Room := hj
          exact absurd hj1 (by simp)
        · rw [if_neg hji] at hj
          exact h.room_live j hj
      · intro j hj
        rw [updSt_cases] at hj ⊢
        by_cases hji : j = i
        · subst hji
          rw [if_pos rfl] at hj
          have hj1 : Mode.Pv = Mode.Room := hj
          exact absurd hj1 (by simp)
        · rw [if_neg hji] at hj ⊢
          exact h.room_ne j hj
      · intro j hj
        rw [updSt_cases] at hj ⊢
        by_cases hji : j = i
        · subst hji
          rw [if_pos rfl] at hj
          have hj1 : Mode.Pv = Mode.Room := hj
          exact absurd hj1 (by simp)
        · rw [if_neg hji] at hj ⊢
          have hstj : (leave_all s i).st j = s.st j := by
            rw [hLst, updSt_cases, if_neg hji]
          have := hL.room_found j (by rw [hstj]; exact hj)
          rw [hstj] at this
          exact this

theorem inv_send_message (s : Server) (i : Nat) (text : String)
    (h : ServerInv s) : ServerInv (send_message s i text) := by
  by_cases h1 : (s.st i).mode = Mode.Room ∧ (s.st i).active_room ≠ ""
  · have hsome := h.room_found i h1.1
    rcases hf : findVal (s.st i).active_room s.rooms with _ | mem
    · rw [hf] at hsome
      exact Bool.noConfusion hsome
    · rw [send_message_room s i text mem h1 hf]
      exact inv_of_eq_core s _ rfl rfl rfl rfl rfl h
  · by_cases h2 : (s.st i).mode = Mode.Pv ∧ (s.st i).active_pv ≠ ""
    · rcases hf : findVal (s.st i).active_pv s.users_by_name with _ | v
      · rw [send_message_pv_absent s i text h1 h2 hf]
        constructor <;> dsimp only
        · exact keys_nodup_mapSet _ _ h.uKeys
        · exact h.rKeys
        · exact h.fresh
        · exact h.live_lt
        · exact h.unnamed_name
        · exact h.unnamed_mode
        · exact h.unnamed_room
        · exact h.unnamed_pv
        · exact h.named_ne
        · intro nm j hj
          by_cases hnm : nm = (s.st i).active_pv
          · subst hnm
            rw [findVal_mapSet_self] at hj
            injection hj with hj
            exact Option.noConfusion hj
          · rw [findVal_mapSet_ne _ _ hnm] at hj
            exact h.uVal nm j hj
        · intro k hk hkn
          have hne : (s.st k).name ≠ (s.st i).active_pv := by
            intro heq
            have := h.reg k hk hkn
            rw [heq, hf] at this
            exact Option.noConfusion this
          rw [findVal_mapSet_ne _ _ hne]
          exact h.reg k hk hkn
        · exact h.member
        · exact h.room_live
        · exact h.room_ne
        · exact h.room_found
      · rcases v with _ | j
        · rw [send_message_pv_null s i text h1 h2 hf]
          exact inv_deliver s i _ h
        · rw [send_message_pv_live s i j text h1 h2 hf]
          exact inv_of_eq_core s _ rfl rfl rfl rfl rfl h
    · rw [send_message_none s i text h1 h2]
      exact inv_deliver s i _ h

theorem inv_report_whereami (s : Server) (i : Nat) (h : ServerInv s) :
    ServerInv (report_whereami s i) := by
  simp only [report_whereami]
  split
  · exact inv_deliver s i _ h
  · split
    · exact inv_deliver s i _ h
    · exact inv_deliver s i _ h

theorem inv_list_rooms (s : Server) (i : Nat) (h : ServerInv s) :
    ServerInv (list_rooms s i) :=
  inv_deliver s i _ h

theorem inv_list_users (s : Server) (i : Nat) (h : ServerInv s) :
    ServerInv (list_users s i) :=
  inv_deliver s i _ h

theorem inv_handle_command (s : Server) (i : Nat) (msg : String)
    (hi : i ∈ s.sessions) (hn : (s.st i).has_name = true)
    (hjoin : starts_with msg "/join " = true → substrFrom msg 6 ≠ "")
    (h : ServerInv s) : ServerInv (handle_command_or_message s i msg) := by
  simp only [handle_command_or_message]
  split
  case isTrue hj =>
    exact inv_switch_to_room s i _ hi hn (hjoin hj) h
  case isFalse hj =>
    split
    · exact inv_switch_to_pv s i _ hi hn h
    · split
      · exact inv_deliver _ i _ (inv_leave_all s i h)
      · split
        · exact inv_report_whereami s i h
        · split
          · exact inv_list_rooms s i h
          · split
            · exact inv_list_users s i h
            · exact inv_send_message s i _ h

theorem inv_on_read (s : Server) (i : Nat) (chunk : String)
    (hi : i ∈ s.sessions) (h : ServerInv s) : ServerInv (on_read s i chunk) := by
  by_cases he : trim chunk = ""
  · rw [on_read_of_empty s i chunk he]
    exact h
  · simp only [on_read, if_neg he]
    by_cases hun : (s.st i).has_name = false
    · rw [if_pos hun]
      exact inv_handle_name s i _ hi hun he h
    · rw [if_neg hun]
      have hn : (s.st i).has_name = true := by
        cases hb : (s.st i).has_name
        · exact absurd hb hun
        · rfl
      exact inv_handle_command s i _ hi hn (trim_join_room_ne_empty chunk) h

theorem inv_init : ServerInv init := by
  constructor
  · simp [init]
  · simp [init]
  · intro k _
    rfl
  · intro k hk
    simp [init] at hk
  · intro k _
    rfl
  · intro k _
    rfl
  · intro k _
    rfl
  · intro k _
    rfl
  · intro k hk
    have : (false : Bool) = true := hk
    exact Bool.noConfusion this
  · intro nm j hj
    have : (Option.none : Option (Option Nat)) = some (some j) := hj
    exact Option.noConfusion this
  · intro k hk
    simp [init] at hk
  · intro r mem hmem
    have : (Option.none : Option (List Nat)) = some mem := hmem
    exact Option.noConfusion this
  · intro j hj
    have : Mode.None = Mode.Room := hj
    exact Mode.noConfusion this
  · intro j hj
    have : Mode.None = Mode.Room := hj
    exact Mode.noConfusion this
  · intro j hj
    have : Mode.None = Mode.Room := hj
    exact Mode.noConfusion this

/-- Every reachable state satisfies the full registry invariant. -/
theorem reachable_inv (s : Server) (h : Reachable s) : ServerInv s := by
  induction h with
  | init => exact inv_init
  | step hr hs ih =>
    cases hs with
    | connect => exact inv_start _ ih
    | read i chunk hi => exact inv_on_read _ i chunk hi ih
    | close i hi => exact inv_cleanup _ i ih

theorem updSt_of_same (f : Nat → SessData) (i : Nat) : updSt f i (f i) = f := by
  funext j
  by_cases hj : j = i <;> simp [updSt, hj]

/-- In Room mode with a vanished room entry, `rooms[active_room_]` creates the
empty room and the fan-out loop over it delivers nothing. -/
theorem send_message_room_absent (s : Server) (i : Nat) (text : String)
    (h : (s.st i).mode = Mode.Room ∧ (s.st i).active_room ≠ "")
    (hf : findVal (s.st i).active_room s.rooms = Option.none) :
    send_message s i text
      = { s with rooms := mapSet (s.st i).active_room [] s.rooms } := by
  have hs' : ¬((findVal (s.st i).active_room s.rooms).isSome = true) := by simp [hf]
  simp only [send_message, if_pos h]
  rw [if_neg hs']
  simp only [findVal_mapSet_self]
  rfl

/-- A cleanup of a session that is unnamed (and hence in mode None) delivers
no message at all. -/
theorem cleanup_msgs_of_silent (s : Server) (i : Nat)
    (hnb : (s.st i).has_name = false) (hm : (s.st i).mode = Mode.None) :
    (cleanup s i).msgs = s.msgs := by
  have hnot : ¬((s.st i).mode = Mode.Room ∧ (s.st i).active_room ≠ "") := by
    rw [hm]
    rintro ⟨hc, -⟩
    exact Mode.noConfusion hc
  have hnb' : ¬((s.st i).has_name = true) := by simp [hnb]
  simp only [cleanup, if_neg hnb']
  rw [room_leave_step_of_notRoom _ _ _ hnot, cleanup_user_step_msgs]

/-! ## Reachability of the concrete trace states -/

theorem reach_start_init : Reachable (start init) :=
  Reachable.step Reachable.init (Step.connect init)

theorem reach_alice : Reachable (on_read (start init) 0 "Alice\n") :=
  Reachable.step reach_start_init (Step.read (start init) 0 "Alice\n" (by decide))

theorem reach_c5_state : Reachable c5_state :=
  Reachable.step reach_alice
    (Step.read (on_read (start init) 0 "Alice\n") 0 "/join lobby\n" (by decide))

theorem reach_c1_state : Reachable c1_state :=
  Reachable.step reach_c5_state (Step.read c5_state 0 "/leave\n" (by decide))

theorem reach_alice_conn : Reachable (start (on_read (start init) 0 "Alice\n")) :=
  Reachable.step reach_alice (Step.connect (on_read (start init) 0 "Alice\n"))

theorem reach_two_named : Reachable two_named :=
  Reachable.step reach_alice_conn
    (Step.read (start (on_read (start init) 0 "Alice\n")) 1 "Bob\n" (by decide))

theorem reach_three_sessions : Reachable three_sessions :=
  Reachable.step reach_two_named (Step.connect two_named)

/-! ## The claims -/

/-- C1: the claim says a room emptied by its last member's departure is
dropped from `roomsByName` and never shown by `/rooms`.  The code keeps the
entry: after the single member of `lobby` leaves, the entry survives with an
empty member set and `/rooms` still prints `- lobby (0 users)`. -/
theorem C1_empty_room_kept_and_listed :
    findVal "lobby" c1_state.rooms = some [] ∧
    list_rooms_text c1_state = "Rooms:\n- lobby (0 users)\n" := by
  decide

/-- C2: the claim says messaging a disconnected pv peer leaves `usersByName`
without an entry for the peer's name.  The code's `users_by_name[active_pv_]`
default-inserts a null entry: after Bob disconnects and Alice sends into the
dead pv, the map holds `"Bob" ↦ null` although Bob's session is gone, and
Alice is told the user went offline. -/
theorem C2_null_user_entry_after_pv_to_dead_peer :
    findVal "Bob" c2_state.users_by_name = some Option.none ∧
    (1 ∈ c2_state.sessions) = False ∧
    (0, "User went offline.\n") ∈ c2_state.msgs := by
  decide

/-- C3: the claim says cleanup is idempotent.  The code never resets
`has_name_` or `name_`, so a second cleanup of Alice broadcasts
"left the server." to Bob again, and (via `users_by_name[name_]`) inserts a
null entry under Alice's name that the first cleanup had removed. -/
theorem C3_second_cleanup_rebroadcasts :
    (cleanup (cleanup two_named 0) 0).msgs
      = (cleanup two_named 0).msgs
        ++ [(1, colored_name (two_named.st 0) ++ " left the server.\n")] ∧
    findVal "Alice" (cleanup two_named 0).users_by_name = Option.none ∧
    findVal "Alice" (cleanup (cleanup two_named 0) 0).users_by_name
      = some Option.none := by
  decide

/-- C4 counterexample: a connected but still unnamed session 0 receives the
server-wide "joined the server." broadcast emitted when session 1 becomes
named, contradicting "a session that has connected but not yet set a name
never receives any broadcast". -/
theorem C4_counterexample_unnamed_receives_broadcast :
    (c4_state.st 0).has_name = false ∧
    (0, colored_name (c4_state.st 1) ++ " joined the server.\n")
      ∈ c4_state.msgs := by
  decide

/-- C4 (amended): server-wide broadcasts are delivered exactly to the sessions
in the global `sessions` set — one message per live session, named or not —
not to the value set of `usersByName`. -/
theorem C4_broadcast_targets_all_sessions (s : Server) (m : String) :
    (broadcast_all s m).msgs = s.msgs ++ s.sessions.map (fun j => (j, m)) :=
  broadcast_all_msgs s m

/-- C5 counterexample: the actor does receive its own "joined room" notice
(the session inserts itself into the room before `broadcast_room`, which
excludes nobody), contradicting "never back to the actor". -/
theorem C5_counterexample_actor_receives_own_join_notice :
    (0, colored_name (c5_state.st 0) ++ " joined room lobby.\n")
      ∈ c5_state.msgs := by
  decide

/-- C5 (amended): the acting session is excluded from its own chat fan-out
and from the "left room" notices of `/leave` (and of disconnect cleanup),
because it is removed from the member set before the notice is broadcast;
but the "joined room" notice of `/join` is delivered to the whole room
including the actor. -/
theorem C5_room_fanout_amended (s : Server) (i : Nat) (text room : String)
    (hq : (s.st i).mode = Mode.Room ∧ (s.st i).active_room ≠ "") :
    (∀ e ∈ (send_message s i text).msgs, e ∈ s.msgs ∨ e.1 ≠ i) ∧
    (∀ e ∈ (leave_all s i).msgs, e ∈ s.msgs ∨ e.1 ≠ i) ∧
    (∀ e ∈ (cleanup s i).msgs, e ∈ s.msgs ∨ e.1 ≠ i) ∧
    (i, colored_name (s.st i) ++ " joined room " ++ room ++ ".\n")
      ∈ (switch_to_room s i room).msgs := by
  refine ⟨?_, leave_all_msgs_sub s i, cleanup_msgs_sub s i, ?_⟩
  · intro e he
    rcases hf : findVal (s.st i).active_room s.rooms with _ | mem
    · rw [send_message_room_absent s i text hq hf] at he
      exact Or.inl he
    · rw [send_message_room s i text mem hq hf] at he
      simp only [List.mem_append] at he
      rcases he with he | he
      · exact Or.inl he
      · right
        rcases List.mem_map.1 he with ⟨j, hj, rfl⟩
        have := List.of_mem_filter hj
        simpa using this
  · rw [switch_to_room_eq]
    refine List.mem_append.2 (Or.inl (List.mem_append.2 (Or.inr ?_)))
    exact List.mem_map.2 ⟨i, mem_insertMem.2 (Or.inr rfl), rfl⟩

/-- C5 witness: in the reachable state where Alice is in `lobby`, switching
to room `den` delivers the join notice to Alice herself. -/
theorem C5_witness :
    ((c5_state.st 0).mode = Mode.Room ∧ (c5_state.st 0).active_room ≠ "") ∧
    (0, colored_name (c5_state.st 0) ++ " joined room " ++ "den" ++ ".\n")
      ∈ (switch_to_room c5_state 0 "den").msgs := by
  have H := C5_room_fanout_amended c5_state 0 "hi" "den" (by decide)
  exact ⟨by decide, H.2.2.2⟩

/-- C6: in every reachable state no two live sessions hold the same name, and
an attempt to take a name already present in `usersByName` is answered with
exactly "Name already taken. Try another: " and changes nothing else. -/
theorem C6_unique_names_and_collision_rejected (s : Server) (h : Reachable s) :
    (∀ i j, i ∈ s.sessions → j ∈ s.sessions →
      (s.st i).has_name = true → (s.st j).has_name = true →
      (s.st i).name = (s.st j).name → i = j) ∧
    (∀ i nm, (findVal nm s.users_by_name).isSome = true →
      handle_name s i nm = deliver s i "Name already taken. Try another: ") := by
  have hinv := reachable_inv s h
  constructor
  · intro i j hi hj hni hnj heq
    have h1 := hinv.reg i hi hni
    have h2 := hinv.reg j hj hnj
    rw [heq, h2] at h1
    injection h1 with h1
    injection h1 with h1
    exact h1.symm
  · intro i nm hnm
    exact handle_name_of_taken s i nm hnm

/-- C6 witness: with Alice and Bob live and a third unnamed client connected,
the third client's attempt to take "Alice" is rejected verbatim, and the two
live names indeed differ. -/
theorem C6_witness :
    handle_name three_sessions 2 "Alice"
      = deliver three_sessions 2 "Name already taken. Try another: " ∧
    ((three_sessions.st 0).name = (three_sessions.st 1).name → False) := by
  have H := C6_unique_names_and_collision_rejected three_sessions
    reach_three_sessions
  refine ⟨H.2 2 "Alice" (by decide), ?_⟩
  intro heq
  have h01 := H.1 0 1 (by decide) (by decide) (by decide) (by decide) heq
  exact absurd h01 (by decide)

/-- C7: in every reachable state a session is a member of `roomsByName[r]`
iff its mode is Room with `activeRoom = r`; moreover every session in Room
mode finds its room in the table (so the biconditional is about a present
entry). -/
theorem C7_room_membership_consistency (s : Server) (h : Reachable s) :
    (∀ r mem j, findVal r s.rooms = some mem →
      (j ∈ mem ↔ ((s.st j).mode = Mode.Room ∧ (s.st j).active_room = r))) ∧
    (∀ j, (s.st j).mode = Mode.Room →
      (findVal (s.st j).active_room s.rooms).isSome = true) := by
  have hinv := reachable_inv s h
  exact ⟨fun r mem j hm => hinv.member r mem hm j, hinv.room_found⟩

/-- C7 witness: in the reachable state where Alice is in `lobby`, the room
entry is exactly `[0]` and the biconditional holds for session 0. -/
theorem C7_witness :
    findVal "lobby" c5_state.rooms = some [0] ∧
    (0 ∈ ([0] : List Nat) ↔ ((c5_state.st 0).mode = Mode.Room ∧
      (c5_state.st 0).active_room = "lobby")) := by
  have H := C7_room_membership_consistency c5_state reach_c5_state
  exact ⟨by decide, H.1 "lobby" [0] 0 (by decide)⟩

/-- C8: a `/pv` whose target is unregistered, or equals the invoker's own
name, delivers exactly one error line to the invoker and leaves the whole
routing context (session table, rooms, users, live set) unchanged; only a
valid `/pv` performs the implicit leave and sets the peer. -/
theorem C8_pv_validation (s : Server) (i : Nat) (target : String) :
    ((findVal target s.users_by_name = Option.none ∨
        ((findVal target s.users_by_name).isSome = true ∧
          target = (s.st i).name)) →
      ((switch_to_pv s i target).st = s.st ∧
       (switch_to_pv s i target).rooms = s.rooms ∧
       (switch_to_pv s i target).users_by_name = s.users_by_name ∧
       (switch_to_pv s i target).sessions = s.sessions ∧
       (switch_to_pv s i target).msgs = s.msgs ++
         [(i, if findVal target s.users_by_name = Option.none
              then "User not found.\n"
              else "You cannot start PV with yourself.\n")])) ∧
    ((findVal target s.users_by_name).isSome = true →
      target ≠ (s.st i).name →
      switch_to_pv s i target =
        { leave_all s i with
          st := updSt s.st i
            { clearCtx (s.st i) with mode := Mode.Pv, active_pv := target }
          msgs := (leave_all s i).msgs
            ++ [(i, "Private chat with " ++ target
                  ++ " started. Type to chat.\n")] }) := by
  constructor
  · rintro (hnone | ⟨hsome, hself⟩)
    · rw [switch_to_pv_of_absent s i target hnone]
      refine ⟨rfl, rfl, rfl, rfl, ?_⟩
      rw [if_pos hnone]
      rfl
    · rw [switch_to_pv_of_self s i target hsome hself]
      refine ⟨rfl, rfl, rfl, rfl, ?_⟩
      rw [if_neg (by simp [Option.isSome_iff_ne_none] at hsome; exact hsome)]
      rfl
  · intro hsome hself
    exact switch_to_pv_of_valid s i target hsome hself

/-- C8 witness: with Alice and Bob live, Alice's `/pv Ghost` reports
"User not found." to Alice only and leaves her context untouched, while
`/pv Bob` switches her into pv mode. -/
theorem C8_witness :
    ((switch_to_pv two_named 0 "Ghost").st = two_named.st ∧
     (switch_to_pv two_named 0 "Ghost").msgs
        = two_named.msgs ++ [(0, "User not found.\n")]) ∧
    ((switch_to_pv two_named 0 "Bob").st 0).active_pv = "Bob" := by
  have Herr := (C8_pv_validation two_named 0 "Ghost").1 (Or.inl (by decide))
  have Hok := (C8_pv_validation two_named 0 "Bob").2 (by decide) (by decide)
  refine ⟨⟨Herr.1, ?_⟩, ?_⟩
  · rw [Herr.2.2.2.2]
    decide
  · rw [Hok]
    decide

/-- C9 counterexample: on the chunk "ab\ncd" the source's `trim` removes the
interior newline (yielding "abcd"), while the claim's description — strip
only trailing CR/NL, then trim outer whitespace — leaves "ab\ncd". -/
theorem C9_counterexample_inner_newline :
    trim "ab\ncd" = "abcd" ∧ trimClaimC9 "ab\ncd" = "ab\ncd" ∧
    ("abcd" : String) ≠ "ab\ncd" := by
  decide

/-- C9 (amended): the preprocessing removes EVERY carriage-return and newline
character anywhere in the chunk, then trims leading/trailing whitespace; a
chunk that becomes empty is discarded with no state change and no message. -/
theorem C9_trim_amended :
    (∀ chunk, trim chunk = trimAmended chunk) ∧
    (∀ (s : Server) (i : Nat) (chunk : String),
      trim chunk = "" → on_read s i chunk = s) :=
  ⟨trim_eq_trimAmended, on_read_of_empty⟩

/-- C9 witness: a whitespace-and-CRLF-only chunk trims to empty and is
discarded without any effect. -/
theorem C9_witness :
    trim " \t\r\n" = "" ∧ on_read two_named 0 " \t\r\n" = two_named :=
  ⟨by decide, C9_trim_amended.2 two_named 0 " \t\r\n" (by decide)⟩

/-- C10: cleanup of a session that never set a name is silent — no broadcast,
no room notice, no registry change other than removal from the live set. -/
theorem C10_unnamed_cleanup_silent (s : Server) (h : Reachable s) (i : Nat)
    (hun : (s.st i).has_name = false) :
    (cleanup s i).msgs = s.msgs ∧
    (cleanup s i).rooms = s.rooms ∧
    (cleanup s i).users_by_name = s.users_by_name ∧
    (cleanup s i).st = s.st ∧
    (cleanup s i).sessions = eraseMem i s.sessions := by
  have hinv := reachable_inv s h
  have hname := hinv.unnamed_name i hun
  have hmode := hinv.unnamed_mode i hun
  have hroom := hinv.unnamed_room i hun
  have hpv := hinv.unnamed_pv i hun
  refine ⟨cleanup_msgs_of_silent s i hun hmode, ?_, ?_, ?_, cleanup_sessions s i⟩
  · rcases cleanup_rooms_cases s i with ⟨ha, -⟩ | ⟨mem, hm, -, -, -⟩
    · exact ha
    · rw [hmode] at hm
      exact absurd hm (by simp)
  · rcases cleanup_users_cases s i with ⟨ha, -⟩ | ⟨hne, -, -⟩ | ⟨hne, -, -⟩
    · exact ha
    · exact absurd hname hne
    · exact absurd hname hne
  · rw [cleanup_st, clearCtx_of_cleared hmode hroom hpv, updSt_of_same]

/-- C10 witness: the cleanup of a freshly connected, never-named session
changes only the live-session set and delivers nothing. -/
theorem C10_witness :
    (cleanup (start init) 0).msgs = (start init).msgs ∧
    (cleanup (start init) 0).sessions = eraseMem 0 (start init).sessions := by
  have H := C10_unnamed_cleanup_silent (start init) reach_start_init 0 (by decide)
  exact ⟨H.1, H.2.2.2.2⟩
